import Mathlib

/-!
Verification development for the generic value encoder of the esl codec
(src/code/ser.rs and src/serde_helpers.rs).

The encoder walks a generically typed value tree and writes the binary
layout of the game-asset format.  Whether a value is preceded by an
explicit 4-byte little-endian length depends on an `isolated` flag threaded
through every recursive call.  The source contains two generations of the
encoder: the newer streaming one built on the `Writer` trait
(`VecEslSerializer`, here instantiated at `Vec<u8>`) and the older
`io::Write`-based one (`EslSerializer`).  Both are embedded below, together
with the short-string protocol of `serde_helpers::serialize_string_tuple`.

Bytes are modelled as `Nat` (the encoder only ever writes values < 256),
the `Vec<u8>` sink as `List Nat`, and Rust `Result` as `Except`.
-/

namespace Esl

/-- The output sink: models `Vec<u8>`.  `pos()` is the length. -/
abbrev W := List Nat

/-- Largest value of a `u32`: the range of the 4-byte length field. -/
def u32Max : Nat := 4294967295

/-- Little-endian byte encoding: `leBytes k v` is the `k` low-order bytes of
`v`, least significant first.  Mirrors `write_u32` / `WriteBytesExt`
little-endian writes in src/code/ser.rs. -/
def leBytes : Nat → Nat → List Nat
  | 0, _ => []
  | k + 1, v => v % 256 :: leBytes k (v / 256)

/-- Two's-complement little-endian bytes of a signed integer of `k` bytes:
models `transmute` from `iN` to `uN` followed by a little-endian write. -/
def intLeBytes (k : Nat) (i : Int) : List Nat :=
  leBytes k (Int.toNat (i % ((2 : Int) ^ (8 * k))))

/-- `SIZE_STUB` from src/code/ser.rs line 312: the placeholder written by
`begin_isolate` before the payload length is known. -/
def SIZE_STUB : Nat := 0x1375F17B

/-- Encode-side error taxonomy: `SerError` from src/code/ser.rs lines 12-20.
The code-page argument of `UnrepresentableChar` is the (ambient) active code
page and is omitted here, where a code page is a function. -/
inductive SerError
  | custom (msg : String)
  | largeObject (len : Nat)
  | unrepresentableChar (c : Char)
  | zeroSizedLastSequenceElement
  | variantIndexMismatch (variantIndex variantSize : Nat)
  | zeroSizedOptional
deriving DecidableEq

/-- Outcome of a serializer call: either a `SerError` (the `Ser` arm of
`SerOrIoError`; the `Io` arm cannot occur for an in-memory `Vec<u8>` sink)
or a Rust `panic!` / failed `assert!` / `unwrap` (modelled explicitly so the
contract-violation paths of the source stay visible). -/
inductive EncErr
  | ser (e : SerError)
  | panicked
deriving DecidableEq

/-- `size` from src/code/ser.rs lines 254-260: checks a byte count against
the 32-bit length field's range. -/
def size (len : Nat) : Except SerError Nat :=
  if len > u32Max then .error (.largeObject len) else .ok len

/-- `<Vec<u8> as Writer>::begin_isolate` (src/code/ser.rs lines 95-99):
appends the 4-byte `SIZE_STUB` placeholder and returns the stub offset. -/
def beginIsolate (w : W) : W × Nat :=
  (w ++ leBytes 4 SIZE_STUB, w.length)

/-- In-place overwrite of bytes `off..off+4`: models
`write_u32(&mut self[off..off+4], v)` (src/code/ser.rs lines 247-252). -/
def writeU32At (w : W) (off v : Nat) : W :=
  w.take off ++ leBytes 4 v ++ w.drop (off + 4)

/-- `<Vec<u8> as Writer>::end_isolate` (src/code/ser.rs lines 101-105):
computes `payload_len = pos() - value_offset`, checks it against the u32
range, and patches the placeholder at `stubOff` with the little-endian
length. -/
def endIsolate (w : W) (stubOff valueOff : Nat) : Except SerError W :=
  match size (w.length - valueOff) with
  | .error e => .error e
  | .ok vs => .ok (writeU32At w stubOff vs)

/-- An 8-bit code page, the external transcoding collaborator
(`CodePage::encoding()` from the excluded `code_page` module): maps a char
to its single byte, or to nothing when unrepresentable. -/
abbrev CodePage := Char → Option Nat

/-- `char_byte` (src/code/ser.rs lines 562-568). -/
def charByte (cp : CodePage) (c : Char) : Except SerError Nat :=
  match cp c with
  | some b => .ok b
  | none => .error (.unrepresentableChar c)

/-- `str_bytes` (src/code/ser.rs lines 570-574): transcodes a string to the
active code page, reporting the first unrepresentable char. -/
def strBytes (cp : CodePage) : List Char → Except SerError (List Nat)
  | [] => .ok []
  | c :: rest =>
    match cp c with
    | none => .error (.unrepresentableChar c)
    | some b =>
      match strBytes cp rest with
      | .error e => .error e
      | .ok bs => .ok (b :: bs)

/-- The generic value tree the serde serializers of src/code/ser.rs accept:
one constructor per `Serializer` method (floats are omitted: the source
writes them as their transmuted `u32`/`u64` bit patterns, already covered
by `vU32`/`vU64`). -/
inductive Value
  | vBool (b : Bool)
  | vU8 (n : Nat)
  | vU16 (n : Nat)
  | vU32 (n : Nat)
  | vU64 (n : Nat)
  | vU128 (n : Nat)
  | vI8 (i : Int)
  | vI16 (i : Int)
  | vI32 (i : Int)
  | vI64 (i : Int)
  | vI128 (i : Int)
  | vChar (c : Char)
  | vStr (s : List Char)
  | vBytes (bs : List Nat)
  | vUnit
  | vUnitStruct
  | vNewtypeStruct (v : Value)
  | vNone
  | vSome (v : Value)
  | vUnitVariant (variantIndex : Nat)
  | vNewtypeVariant (variantIndex : Nat) (v : Value)
  | vTupleVariant (variantIndex : Nat) (fields : List Value)
  | vStructVariant (variantIndex : Nat) (fields : List Value)
  | vTuple (fields : List Value)
  | vStruct (fields : List Value)
  | vSeq (elems : List Value)
  | vMap (entries : List (Value × Value))

/-- `VecEslSerializer::serialize_bytes` (src/code/ser.rs lines 591-597):
a 4-byte length precedes the bytes only when not isolated. -/
def vecSerializeBytes (isolated : Bool) (bs : List Nat) (w : W) :
    Except EncErr (W × Nat) :=
  if isolated then .ok (w ++ bs, bs.length)
  else
    match size bs.length with
    | .error e => .error (.ser e)
    | .ok vs => .ok (w ++ leBytes 4 vs ++ bs, 4 + bs.length)

mutual

/-- The streaming encoder `impl Serializer for VecEslSerializer` with the
`Vec<u8>` writer (src/code/ser.rs lines 576-808).  Returns the updated sink
and the `usize` result of the `serialize` call. -/
def vecEslSerialize (cp : CodePage) (isolated : Bool) (v : Value) (w : W) :
    Except EncErr (W × Nat) :=
  match v with
  | .vBool b => .ok (w ++ [if b then 1 else 0], 1)
  | .vU8 n => .ok (w ++ leBytes 1 n, 1)
  | .vU16 n => .ok (w ++ leBytes 2 n, 2)
  | .vU32 n => .ok (w ++ leBytes 4 n, 4)
  | .vU64 n => .ok (w ++ leBytes 8 n, 8)
  | .vU128 n => .ok (w ++ leBytes 16 n, 16)
  | .vI8 i => .ok (w ++ intLeBytes 1 i, 1)
  | .vI16 i => .ok (w ++ intLeBytes 2 i, 2)
  | .vI32 i => .ok (w ++ intLeBytes 4 i, 4)
  | .vI64 i => .ok (w ++ intLeBytes 8 i, 8)
  | .vI128 i => .ok (w ++ intLeBytes 16 i, 16)
  | .vChar c =>
    match charByte cp c with
    | .error e => .error (.ser e)
    | .ok b => .ok (w ++ [b], 1)
  | .vStr s =>
    match strBytes cp s with
    | .error e => .error (.ser e)
    | .ok bs => vecSerializeBytes isolated bs w
  | .vBytes bs => vecSerializeBytes isolated bs w
  | .vUnit => .ok (w, 0)
  | .vUnitStruct => .ok (w, 0)
  | .vNewtypeStruct v1 => vecEslSerialize cp isolated v1 w
  | .vNone =>
    if isolated then .ok (w, 0) else .ok (w ++ leBytes 4 0, 4)
  | .vSome v1 =>
    if isolated then
      match vecEslSerialize cp true v1 w with
      | .error e => .error e
      | .ok (w2, n) =>
        if n = 0 then .error (.ser .zeroSizedOptional) else .ok (w2, n)
    else
      match vecEslSerialize cp true v1 (w ++ leBytes 4 SIZE_STUB) with
      | .error e => .error e
      | .ok (w2, n) =>
        if n = 0 then .error (.ser .zeroSizedOptional)
        else
          match endIsolate w2 w.length (w.length + 4) with
          | .error e => .error (.ser e)
          | .ok w3 => .ok (w3, 4 + n)
  | .vUnitVariant idx =>
    if idx ≠ 0 then .error (.ser (.variantIndexMismatch idx 0))
    else if isolated then .ok (w, 0) else .ok (w ++ leBytes 4 0, 4)
  | .vNewtypeVariant idx v1 =>
    match vecEslSerialize cp true v1
        (if isolated then w else w ++ leBytes 4 idx) with
    | .error e => .error e
    | .ok (w2, n) =>
      match size n with
      | .error e => .error (.ser e)
      | .ok vs =>
        if idx ≠ vs then .error (.ser (.variantIndexMismatch idx vs))
        else .ok (w2, (if isolated then 0 else 4) + n)
  | .vTupleVariant idx fs =>
    match vecSerializeFields cp (if isolated then some fs.length else none)
        fs (if isolated then w else w ++ leBytes 4 idx) with
    | .error e => .error e
    | .ok (w2, n) =>
      match size n with
      | .error e => .error (.ser e)
      | .ok vs =>
        if idx ≠ vs then .error (.ser (.variantIndexMismatch idx vs))
        else .ok (w2, n)
  | .vStructVariant idx fs =>
    match vecSerializeFields cp (if isolated then some fs.length else none)
        fs (if isolated then w else w ++ leBytes 4 idx) with
    | .error e => .error e
    | .ok (w2, n) =>
      match size n with
      | .error e => .error (.ser e)
      | .ok vs =>
        if idx ≠ vs then .error (.ser (.variantIndexMismatch idx vs))
        else .ok (w2, n)
  | .vTuple fs =>
    vecSerializeFields cp (if isolated then some fs.length else none) fs w
  | .vStruct fs =>
    vecSerializeFields cp (if isolated then some fs.length else none) fs w
  | .vSeq es =>
    if isolated then
      match vecSeqElements cp es w with
      | .error e => .error e
      | .ok (w2, tot, lz) =>
        if lz then .error (.ser .zeroSizedLastSequenceElement)
        else .ok (w2, tot)
    else
      match vecSeqElements cp es (w ++ leBytes 4 SIZE_STUB) with
      | .error e => .error e
      | .ok (w2, tot, lz) =>
        if lz then .error (.ser .zeroSizedLastSequenceElement)
        else
          match endIsolate w2 w.length (w.length + 4) with
          | .error e => .error (.ser e)
          | .ok w3 => .ok (w3, 4 + tot)
  | .vMap ps => vecMapEntries cp ps w

/-- `vec_serialize_field` (src/code/ser.rs lines 378-389) folded over the
fields of a struct, tuple or variant via `VecStructSerializer` /
`VecStructVariantSerializer`: with a declared length the counter is
decremented first and the field is isolated exactly when the counter
reaches zero (the last declared field); serializing more fields than
declared is a `panic!`. -/
def vecSerializeFields (cp : CodePage) (cnt : Option Nat) (fs : List Value)
    (w : W) : Except EncErr (W × Nat) :=
  match fs with
  | [] => .ok (w, 0)
  | f :: rest =>
    match cnt with
    | some 0 => .error .panicked
    | some (k + 1) =>
      match vecEslSerialize cp (k == 0) f w with
      | .error e => .error e
      | .ok (w1, n1) =>
        match vecSerializeFields cp (some k) rest w1 with
        | .error e => .error e
        | .ok (w2, n2) => .ok (w2, n1 + n2)
    | none =>
      match vecEslSerialize cp false f w with
      | .error e => .error e
      | .ok (w1, n1) =>
        match vecSerializeFields cp none rest w1 with
        | .error e => .error e
        | .ok (w2, n2) => .ok (w2, n1 + n2)

/-- `VecBaseSeqSerializer::serialize_element` (src/code/ser.rs lines
262-271) folded over the elements: each element is encoded with
`isolated = false`; the result records the total of the returned sizes and
whether the last element's returned size was zero. -/
def vecSeqElements (cp : CodePage) (es : List Value) (w : W) :
    Except EncErr (W × Nat × Bool) :=
  match es with
  | [] => .ok (w, 0, false)
  | e :: rest =>
    match vecEslSerialize cp false e w with
    | .error e1 => .error e1
    | .ok (w1, n) =>
      match rest with
      | [] => .ok (w1, n, n == 0)
      | _ :: _ =>
        match vecSeqElements cp rest w1 with
        | .error e1 => .error e1
        | .ok (w2, tot, lz) => .ok (w2, n + tot, lz)

/-- `VecBaseMapSerializer` (src/code/ser.rs lines 314-342) folded over the
key/value entries handed to it by serde: for each entry the key is encoded
with `VecKeySerializer`; if the key did not itself open the value's isolate
(`value_buf` is `None`), one is opened right after the key (adding 4 to the
size); the value is then encoded isolated and the isolate is closed against
the recorded value position.  `SerializeMap::end` returns the accumulated
size and performs no arity check. -/
def vecMapEntries (cp : CodePage) (ps : List (Value × Value)) (w : W) :
    Except EncErr (W × Nat) :=
  match ps with
  | [] => .ok (w, 0)
  | (k, v) :: rest =>
    match vecKeySerialize cp k w with
    | .error e => .error e
    | .ok (w1, some (s, p), ksize) =>
      match vecEslSerialize cp true v w1 with
      | .error e => .error e
      | .ok (w2, vsize) =>
        match endIsolate w2 s p with
        | .error e => .error (.ser e)
        | .ok w3 =>
          match vecMapEntries cp rest w3 with
          | .error e => .error e
          | .ok (w4, tot) => .ok (w4, ksize + vsize + tot)
    | .ok (w1, none, ksize) =>
      match vecEslSerialize cp true v (w1 ++ leBytes 4 SIZE_STUB) with
      | .error e => .error e
      | .ok (w2, vsize) =>
        match endIsolate w2 w1.length (w1.length + 4) with
        | .error e => .error (.ser e)
        | .ok w3 =>
          match vecMapEntries cp rest w3 with
          | .error e => .error e
          | .ok (w4, tot) => .ok (w4, (ksize + 4) + vsize + tot)

/-- `impl Serializer for VecKeySerializer` (src/code/ser.rs lines 810-1010):
the serializer for map keys.  Its `Ok` type is
`(Option<(W::Buf, usize)>, usize)`: an optional already-opened isolate for
the map value (stub offset and value position) plus the size. -/
def vecKeySerialize (cp : CodePage) (v : Value) (w : W) :
    Except EncErr (W × Option (Nat × Nat) × Nat) :=
  match v with
  | .vBool b => .ok (w ++ [if b then 1 else 0], none, 1)
  | .vU8 n => .ok (w ++ leBytes 1 n, none, 1)
  | .vU16 n => .ok (w ++ leBytes 2 n, none, 2)
  | .vU32 n => .ok (w ++ leBytes 4 n, none, 4)
  | .vU64 n => .ok (w ++ leBytes 8 n, none, 8)
  | .vU128 n => .ok (w ++ leBytes 16 n, none, 16)
  | .vI8 i => .ok (w ++ intLeBytes 1 i, none, 1)
  | .vI16 i => .ok (w ++ intLeBytes 2 i, none, 2)
  | .vI32 i => .ok (w ++ intLeBytes 4 i, none, 4)
  | .vI64 i => .ok (w ++ intLeBytes 8 i, none, 8)
  | .vI128 i => .ok (w ++ intLeBytes 16 i, none, 16)
  | .vChar c =>
    match charByte cp c with
    | .error e => .error (.ser e)
    | .ok b => .ok (w ++ [b], none, 1)
  | .vStr s =>
    match strBytes cp s with
    | .error e => .error (.ser e)
    | .ok bs =>
      match size bs.length with
      | .error e => .error (.ser e)
      | .ok vs => .ok (w ++ leBytes 4 vs ++ bs, none, 4 + bs.length)
  | .vBytes bs =>
    match size bs.length with
    | .error e => .error (.ser e)
    | .ok vs => .ok (w ++ leBytes 4 vs ++ bs, none, 4 + bs.length)
  | .vUnit => .ok (w, none, 0)
  | .vUnitStruct => .ok (w, none, 0)
  | .vNewtypeStruct v1 =>
    match vecEslSerialize cp false v1 w with
    | .error e => .error e
    | .ok (w1, n) => .ok (w1, none, n)
  | .vNone => .ok (w ++ leBytes 4 0, none, 4)
  | .vSome v1 =>
    match vecEslSerialize cp true v1 (w ++ leBytes 4 SIZE_STUB) with
    | .error e => .error e
    | .ok (w2, n) =>
      if n = 0 then .error (.ser .zeroSizedOptional)
      else
        match endIsolate w2 w.length (w.length + 4) with
        | .error e => .error (.ser e)
        | .ok w3 => .ok (w3, none, 4 + n)
  | .vUnitVariant idx =>
    if idx ≠ 0 then .error (.ser (.variantIndexMismatch idx 0))
    else .ok (w ++ leBytes 4 0, none, 4)
  | .vNewtypeVariant idx v1 =>
    match vecEslSerialize cp true v1 (w ++ leBytes 4 idx) with
    | .error e => .error e
    | .ok (w2, n) =>
      match size n with
      | .error e => .error (.ser e)
      | .ok vs =>
        if idx ≠ vs then .error (.ser (.variantIndexMismatch idx vs))
        else .ok (w2, none, 4 + n)
  | .vTupleVariant idx fs =>
    match vecKeySerializeFields cp fs (w ++ leBytes 4 idx) with
    | .error e => .error e
    | .ok (w2, n) =>
      match size n with
      | .error e => .error (.ser e)
      | .ok vs =>
        if idx ≠ vs then .error (.ser (.variantIndexMismatch idx vs))
        else .ok (w2, none, n)
  | .vStructVariant idx fs =>
    match vecKeySerializeFields cp fs (w ++ leBytes 4 idx) with
    | .error e => .error e
    | .ok (w2, n) =>
      match size n with
      | .error e => .error (.ser e)
      | .ok vs =>
        if idx ≠ vs then .error (.ser (.variantIndexMismatch idx vs))
        else .ok (w2, none, n)
  | .vTuple fs =>
    match vecKeyTupleElements cp fs w none with
    | .error e => .error e
    | .ok (w1, vb, n) => .ok (w1, vb.map (fun s => (s, w1.length)), n)
  | .vStruct fs =>
    match vecKeySerializeFields cp fs w with
    | .error e => .error e
    | .ok (w1, n) => .ok (w1, none, n)
  | .vSeq es =>
    match vecSeqElements cp es (w ++ leBytes 4 SIZE_STUB) with
    | .error e => .error e
    | .ok (w2, tot, lz) =>
      if lz then .error (.ser .zeroSizedLastSequenceElement)
      else
        match endIsolate w2 w.length (w.length + 4) with
        | .error e => .error (.ser e)
        | .ok w3 => .ok (w3, none, 4 + tot)
  | .vMap ps =>
    match vecMapEntries cp ps w with
    | .error e => .error e
    | .ok (w1, tot) => .ok (w1, none, tot)

/-- `vec_serialize_key_field` (src/code/ser.rs lines 391-398) folded over
the fields of a key struct, key tuple-struct or key variant: every field is
encoded with `isolated = false`. -/
def vecKeySerializeFields (cp : CodePage) (fs : List Value) (w : W) :
    Except EncErr (W × Nat) :=
  match fs with
  | [] => .ok (w, 0)
  | f :: rest =>
    match vecEslSerialize cp false f w with
    | .error e => .error e
    | .ok (w1, n1) =>
      match vecKeySerializeFields cp rest w1 with
      | .error e => .error e
      | .ok (w2, n2) => .ok (w2, n1 + n2)

/-- `VecKeyTupleSerializer::serialize_element` (src/code/ser.rs lines
442-462) folded over a key tuple's elements: after the first element the
map value's isolate stub is written (its offset kept in `vb`) and 4 is
added to the size; later elements are written after the stub. -/
def vecKeyTupleElements (cp : CodePage) (fs : List Value) (w : W)
    (vb : Option Nat) : Except EncErr (W × Option Nat × Nat) :=
  match fs with
  | [] => .ok (w, vb, 0)
  | f :: rest =>
    match vb with
    | some _ =>
      match vecEslSerialize cp false f w with
      | .error e => .error e
      | .ok (w1, n1) =>
        match vecKeyTupleElements cp rest w1 vb with
        | .error e => .error e
        | .ok (w2, vb2, n2) => .ok (w2, vb2, n1 + n2)
    | none =>
      match vecEslSerialize cp false f w with
      | .error e => .error e
      | .ok (w1, n1) =>
        match vecKeyTupleElements cp rest (w1 ++ leBytes 4 SIZE_STUB)
            (some w1.length) with
        | .error e => .error e
        | .ok (w2, vb2, n2) => .ok (w2, vb2, (n1 + 4) + n2)

end

/-- `EslSerializer::serialize_bytes` (src/code/ser.rs lines 1470-1476),
delta-style: the legacy serializer only ever appends, so it is embedded as
the appended byte suffix plus the returned size. -/
def eslSerializeBytes (isolated : Bool) (bs : List Nat) :
    Except EncErr (List Nat × Nat) :=
  if isolated then .ok (bs, bs.length)
  else
    match size bs.length with
    | .error e => .error (.ser e)
    | .ok vs => .ok (leBytes 4 vs ++ bs, 4 + bs.length)

mutual

/-- The legacy encoder `impl Serializer for EslSerializer` (src/code/ser.rs
lines 1455-1678) writing into a `Vec<u8>` (a plain `io::Write` sink, so it
only appends): embedded delta-style as the appended suffix plus the
returned size.  Aggregates that need a length before their payload buffer
the payload into a fresh `Vec<u8>` through `VecEslSerializer` and then
write length + buffer in one shot. -/
def eslSerialize (cp : CodePage) (isolated : Bool) (v : Value) :
    Except EncErr (List Nat × Nat) :=
  match v with
  | .vBool b => .ok ([if b then 1 else 0], 1)
  | .vU8 n => .ok (leBytes 1 n, 1)
  | .vU16 n => .ok (leBytes 2 n, 2)
  | .vU32 n => .ok (leBytes 4 n, 4)
  | .vU64 n => .ok (leBytes 8 n, 8)
  | .vU128 n => .ok (leBytes 16 n, 16)
  | .vI8 i => .ok (intLeBytes 1 i, 1)
  | .vI16 i => .ok (intLeBytes 2 i, 2)
  | .vI32 i => .ok (intLeBytes 4 i, 4)
  | .vI64 i => .ok (intLeBytes 8 i, 8)
  | .vI128 i => .ok (intLeBytes 16 i, 16)
  | .vChar c =>
    match charByte cp c with
    | .error e => .error (.ser e)
    | .ok b => .ok ([b], 1)
  | .vStr s =>
    match strBytes cp s with
    | .error e => .error (.ser e)
    | .ok bs => eslSerializeBytes isolated bs
  | .vBytes bs => eslSerializeBytes isolated bs
  | .vUnit => .ok ([], 0)
  | .vUnitStruct => .ok ([], 0)
  | .vNewtypeStruct v1 => eslSerialize cp isolated v1
  | .vNone =>
    if isolated then .ok ([], 0) else .ok (leBytes 4 0, 4)
  | .vSome v1 =>
    match vecEslSerialize cp true v1 [] with
    | .error e => .error e
    | .ok (d, n) =>
      if n = 0 then .error (.ser .zeroSizedOptional)
      else eslSerializeBytes isolated d
  | .vUnitVariant idx =>
    if idx ≠ 0 then .error (.ser (.variantIndexMismatch idx 0))
    else if isolated then .ok ([], 0) else .ok (leBytes 4 0, 4)
  | .vNewtypeVariant idx v1 =>
    match eslSerialize cp true v1 with
    | .error e => .error e
    | .ok (d, n) =>
      match size n with
      | .error e => .error (.ser e)
      | .ok vs =>
        if idx ≠ vs then .error (.ser (.variantIndexMismatch idx vs))
        else .ok ((if isolated then [] else leBytes 4 idx) ++ d,
          (if isolated then 0 else 4) + n)
  | .vTupleVariant idx fs =>
    match eslSerializeFields cp (if isolated then some fs.length else none)
        fs with
    | .error e => .error e
    | .ok (d, n) =>
      match size n with
      | .error e => .error (.ser e)
      | .ok vs =>
        if idx ≠ vs then .error (.ser (.variantIndexMismatch idx vs))
        else .ok ((if isolated then [] else leBytes 4 idx) ++ d, n)
  | .vStructVariant idx fs =>
    match eslSerializeFields cp (if isolated then some fs.length else none)
        fs with
    | .error e => .error e
    | .ok (d, n) =>
      match size n with
      | .error e => .error (.ser e)
      | .ok vs =>
        if idx ≠ vs then .error (.ser (.variantIndexMismatch idx vs))
        else .ok ((if isolated then [] else leBytes 4 idx) ++ d, n)
  | .vTuple fs =>
    eslSerializeFields cp (if isolated then some fs.length else none) fs
  | .vStruct fs =>
    eslSerializeFields cp (if isolated then some fs.length else none) fs
  | .vSeq es =>
    if isolated then
      match eslSeqElementsDirect cp es with
      | .error e => .error e
      | .ok (d, tot, lz) =>
        if lz then .error (.ser .zeroSizedLastSequenceElement)
        else .ok (d, tot)
    else
      match vecSeqElements cp es [] with
      | .error e => .error e
      | .ok (buf, _, lz) =>
        if lz then .error (.ser .zeroSizedLastSequenceElement)
        else
          match size buf.length with
          | .error e => .error (.ser e)
          | .ok vs => .ok (leBytes 4 vs ++ buf, 4 + buf.length)
  | .vMap ps => eslMapEntries cp ps

/-- `serialize_field` (src/code/ser.rs lines 1238-1249) folded over struct,
tuple or variant fields via `StructSerializer` /
`StructVariantSerializer`: same counter logic as the streaming encoder. -/
def eslSerializeFields (cp : CodePage) (cnt : Option Nat)
    (fs : List Value) : Except EncErr (List Nat × Nat) :=
  match fs with
  | [] => .ok ([], 0)
  | f :: rest =>
    match cnt with
    | some 0 => .error .panicked
    | some (k + 1) =>
      match eslSerialize cp (k == 0) f with
      | .error e => .error e
      | .ok (d1, n1) =>
        match eslSerializeFields cp (some k) rest with
        | .error e => .error e
        | .ok (d2, n2) => .ok (d1 ++ d2, n1 + n2)
    | none =>
      match eslSerialize cp false f with
      | .error e => .error e
      | .ok (d1, n1) =>
        match eslSerializeFields cp none rest with
        | .error e => .error e
        | .ok (d2, n2) => .ok (d1 ++ d2, n1 + n2)

/-- `SeqSerializer::serialize_element`, `Left` branch (src/code/ser.rs
lines 1116-1136): an isolated sequence writes each element directly through
`EslSerializer` with `isolated = false`, tracking the returned-size total
and whether the last element returned size zero. -/
def eslSeqElementsDirect (cp : CodePage) (es : List Value) :
    Except EncErr (List Nat × Nat × Bool) :=
  match es with
  | [] => .ok ([], 0, false)
  | e :: rest =>
    match eslSerialize cp false e with
    | .error e1 => .error e1
    | .ok (d, n) =>
      match rest with
      | [] => .ok (d, n, n == 0)
      | _ :: _ =>
        match eslSeqElementsDirect cp rest with
        | .error e1 => .error e1
        | .ok (d2, tot, lz) => .ok (d ++ d2, n + tot, lz)

/-- `BaseMapSerializer` (src/code/ser.rs lines 1176-1202) folded over the
entries: the key is encoded with `KeySerializer` (which may hand back a
buffered key tail), the value is buffered into a fresh `Vec<u8>` through
`VecEslSerializer` (its returned size is discarded), then the value length,
the key tail and the value bytes are written. -/
def eslMapEntries (cp : CodePage) (ps : List (Value × Value)) :
    Except EncErr (List Nat × Nat) :=
  match ps with
  | [] => .ok ([], 0)
  | (k, v) :: rest =>
    match keySerialize cp k with
    | .error e => .error e
    | .ok (kd, tail, ksize) =>
      match vecEslSerialize cp true v [] with
      | .error e => .error e
      | .ok (vd, _) =>
        match size vd.length with
        | .error e => .error (.ser e)
        | .ok vs =>
          match eslMapEntries cp rest with
          | .error e => .error e
          | .ok (rd, rtot) =>
            .ok (kd ++ leBytes 4 vs ++
                (match tail with | some t => t | none => []) ++ vd ++ rd,
              (ksize + (4 + vd.length)) + rtot)

/-- `impl Serializer for KeySerializer` (src/code/ser.rs lines 1680-1876):
the legacy map-key serializer.  Its `Ok` type is
`(Option<Vec<u8>>, usize)`: the buffered key tail (for tuple keys) plus
the size; embedded delta-style. -/
def keySerialize (cp : CodePage) (v : Value) :
    Except EncErr (List Nat × Option (List Nat) × Nat) :=
  match v with
  | .vBool b => .ok ([if b then 1 else 0], none, 1)
  | .vU8 n => .ok (leBytes 1 n, none, 1)
  | .vU16 n => .ok (leBytes 2 n, none, 2)
  | .vU32 n => .ok (leBytes 4 n, none, 4)
  | .vU64 n => .ok (leBytes 8 n, none, 8)
  | .vU128 n => .ok (leBytes 16 n, none, 16)
  | .vI8 i => .ok (intLeBytes 1 i, none, 1)
  | .vI16 i => .ok (intLeBytes 2 i, none, 2)
  | .vI32 i => .ok (intLeBytes 4 i, none, 4)
  | .vI64 i => .ok (intLeBytes 8 i, none, 8)
  | .vI128 i => .ok (intLeBytes 16 i, none, 16)
  | .vChar c =>
    match charByte cp c with
    | .error e => .error (.ser e)
    | .ok b => .ok ([b], none, 1)
  | .vStr s =>
    match strBytes cp s with
    | .error e => .error (.ser e)
    | .ok bs =>
      match size bs.length with
      | .error e => .error (.ser e)
      | .ok vs => .ok (leBytes 4 vs ++ bs, none, 4 + bs.length)
  | .vBytes bs =>
    match size bs.length with
    | .error e => .error (.ser e)
    | .ok vs => .ok (leBytes 4 vs ++ bs, none, 4 + bs.length)
  | .vUnit => .ok ([], none, 0)
  | .vUnitStruct => .ok ([], none, 0)
  | .vNewtypeStruct v1 =>
    match eslSerialize cp false v1 with
    | .error e => .error e
    | .ok (d, n) => .ok (d, none, n)
  | .vNone => .ok (leBytes 4 0, none, 4)
  | .vSome v1 =>
    match vecEslSerialize cp true v1 [] with
    | .error e => .error e
    | .ok (d, n) =>
      if n = 0 then .error (.ser .zeroSizedOptional)
      else
        match size d.length with
        | .error e => .error (.ser e)
        | .ok vs => .ok (leBytes 4 vs ++ d, none, 4 + d.length)
  | .vUnitVariant idx =>
    if idx ≠ 0 then .error (.ser (.variantIndexMismatch idx 0))
    else .ok (leBytes 4 0, none, 4)
  | .vNewtypeVariant idx v1 =>
    match eslSerialize cp true v1 with
    | .error e => .error e
    | .ok (d, n) =>
      match size n with
      | .error e => .error (.ser e)
      | .ok vs =>
        if idx ≠ vs then .error (.ser (.variantIndexMismatch idx vs))
        else .ok (leBytes 4 idx ++ d, none, 4 + n)
  | .vTupleVariant idx fs =>
    match keySerializeFields cp fs with
    | .error e => .error e
    | .ok (d, n) =>
      match size n with
      | .error e => .error (.ser e)
      | .ok vs =>
        if idx ≠ vs then .error (.ser (.variantIndexMismatch idx vs))
        else .ok (leBytes 4 idx ++ d, none, n)
  | .vStructVariant idx fs =>
    match keySerializeFields cp fs with
    | .error e => .error e
    | .ok (d, n) =>
      match size n with
      | .error e => .error (.ser e)
      | .ok vs =>
        if idx ≠ vs then .error (.ser (.variantIndexMismatch idx vs))
        else .ok (leBytes 4 idx ++ d, none, n)
  | .vTuple fs =>
    match fs with
    | [] => .ok ([], none, 0)
    | f :: rest =>
      match eslSerialize cp false f with
      | .error e => .error e
      | .ok (d1, n1) =>
        match vecKeySerializeFields cp rest [] with
        | .error e => .error e
        | .ok (tb, tot) => .ok (d1, some tb, n1 + tot)
  | .vStruct fs =>
    match keySerializeFields cp fs with
    | .error e => .error e
    | .ok (d, n) => .ok (d, none, n)
  | .vSeq es =>
    match vecSeqElements cp es [] with
    | .error e => .error e
    | .ok (buf, _, lz) =>
      if lz then .error (.ser .zeroSizedLastSequenceElement)
      else
        match size buf.length with
        | .error e => .error (.ser e)
        | .ok vs => .ok (leBytes 4 vs ++ buf, none, 4 + buf.length)
  | .vMap ps =>
    match eslMapEntries cp ps with
    | .error e => .error e
    | .ok (d, n) => .ok (d, none, n)

/-- `serialize_key_field` (src/code/ser.rs lines 1251-1258) folded over the
fields of a legacy key struct, tuple-struct or variant: every field is
encoded with `isolated = false` through `EslSerializer`. -/
def keySerializeFields (cp : CodePage) (fs : List Value) :
    Except EncErr (List Nat × Nat) :=
  match fs with
  | [] => .ok ([], 0)
  | f :: rest =>
    match eslSerialize cp false f with
    | .error e => .error e
    | .ok (d1, n1) =>
      match keySerializeFields cp rest with
      | .error e => .error e
      | .ok (d2, n2) => .ok (d1 ++ d2, n1 + n2)

end

/-- UTF-8 byte length of a char: models Rust's `char` UTF-8 width, used by
`str::len`. -/
def charUtf8Len (c : Char) : Nat := c.utf8Size

/-- UTF-8 byte length of a string: `str::len` in Rust. -/
def utf8Len (s : List Char) : Nat := (s.map charUtf8Len).sum

/-- The final UTF-8 byte of a char: equals the code point for a one-byte
char and `0x80 + (codepoint mod 64)` (a continuation byte) otherwise.
Models `s.as_bytes().last()`. -/
def charLastUtf8Byte (c : Char) : Nat :=
  if c.toNat < 128 then c.toNat else 128 + c.toNat % 64

/-- `s.as_bytes().last().map_or(false, |&x| x == 0)` from
src/serde_helpers.rs line 16. -/
def lastUtf8ByteIsZero (s : List Char) : Bool :=
  match s.getLast? with
  | none => false
  | some c => charLastUtf8Byte c == 0

/-- The short-string protocol `serialize_string_tuple`
(src/serde_helpers.rs lines 9-28), instantiated at the streaming binary
serializer: after the two guard checks, a tuple of `len` declared elements
is opened and the chars of `s` followed by `len - s.len()` NUL padding
chars are serialized as its elements (`s.len()` is the UTF-8 byte length).
The guard errors are serde `custom` errors in the source. -/
def serializeStringTuple (cp : CodePage) (isolated : Bool) (s : List Char)
    (len : Nat) (w : W) : Except EncErr (W × Nat) :=
  if utf8Len s > len then
    .error (.ser (.custom ("string length is above " ++ toString len ++
      " chars")))
  else if lastUtf8ByteIsZero s then
    .error (.ser (.custom "string tuple value has tail zero"))
  else
    vecSerializeFields cp (if isolated then some len else none)
      ((s ++ List.replicate (len - utf8Len s) (Char.ofNat 0)).map .vChar) w

mutual

/-- `noTSVariants v` holds when no tuple variant and no struct variant
occurs anywhere inside `v`.  On this fragment the returned sizes of both
encoders equal the appended byte counts (the `end` of
`VecBaseStructVariantSerializer` / `BaseStructVariantSerializer` returns
the field total without the 4 discriminant bytes, which breaks that
agreement). -/
def noTSVariants : Value → Bool
  | .vNewtypeStruct v => noTSVariants v
  | .vSome v => noTSVariants v
  | .vNewtypeVariant _ v => noTSVariants v
  | .vTupleVariant _ _ => false
  | .vStructVariant _ _ => false
  | .vTuple fs => noTSVariantsList fs
  | .vStruct fs => noTSVariantsList fs
  | .vSeq es => noTSVariantsList es
  | .vMap ps => noTSVariantsPairs ps
  | _ => true

/-- `noTSVariants` on every element of a list. -/
def noTSVariantsList : List Value → Bool
  | [] => true
  | v :: rest => noTSVariants v && noTSVariantsList rest

/-- `noTSVariants` on both components of every pair. -/
def noTSVariantsPairs : List (Value × Value) → Bool
  | [] => true
  | (k, v) :: rest =>
    noTSVariants k && (noTSVariants v && noTSVariantsPairs rest)

end

/-! ### Basic facts about the byte-level primitives -/

theorem leBytes_length (k v : Nat) : (leBytes k v).length = k := by
  induction k generalizing v with
  | zero => rfl
  | succ k ih => simp [leBytes, ih]

theorem writeU32At_shift (u w : W) (off v : Nat) :
    writeU32At (u ++ w) (u.length + off) v = u ++ writeU32At w off v := by
  unfold writeU32At
  rw [List.take_append, show u.length + off + 4 = u.length + (off + 4) by
    omega, List.drop_append]
  simp

theorem writeU32At_length (w : W) (off v : Nat) (h : off + 4 ≤ w.length) :
    (writeU32At w off v).length = w.length := by
  unfold writeU32At
  simp [leBytes_length]
  omega

theorem endIsolate_shift (u w : W) (s p : Nat) :
    endIsolate (u ++ w) (u.length + s) (u.length + p) =
      Except.map (fun x => u ++ x) (endIsolate w s p) := by
  unfold endIsolate size
  rw [List.length_append, Nat.add_sub_add_left]
  by_cases h : w.length - p > u32Max
  · simp [h, Except.map]
  · simp [h, Except.map, writeU32At_shift]

theorem endIsolate_stub (w s : W) :
    endIsolate (w ++ leBytes 4 SIZE_STUB ++ s) w.length (w.length + 4) =
      if s.length ≤ u32Max then .ok (w ++ leBytes 4 s.length ++ s)
      else .error (.largeObject s.length) := by
  have hst : (leBytes 4 SIZE_STUB).length = 4 := leBytes_length 4 _
  have hlen : (w ++ (leBytes 4 SIZE_STUB ++ s)).length =
      w.length + 4 + s.length := by
    simp [hst]; omega
  unfold endIsolate size
  rw [List.append_assoc]
  rw [hlen, show w.length + 4 + s.length - (w.length + 4) = s.length by omega]
  by_cases h : s.length > u32Max
  · have h2 : ¬ s.length ≤ u32Max := by omega
    simp [h, h2]
  · have h2 : s.length ≤ u32Max := by omega
    simp only [if_neg h, if_pos h2]
    congr 1
    unfold writeU32At
    have ht : (w ++ (leBytes 4 SIZE_STUB ++ s)).take w.length = w := by
      rw [show w.length = w.length + 0 by omega, List.take_append]
      simp
    have hd : (w ++ (leBytes 4 SIZE_STUB ++ s)).drop (w.length + 4) = s := by
      rw [List.drop_append]
      have h3 := List.drop_left (leBytes 4 SIZE_STUB) s
      rwa [hst] at h3
    rw [ht, hd]

/-! ### Prefix independence

The streaming encoder only ever appends bytes and patches stubs inside the
appended region, so its behaviour on a sink `u ++ w` is its behaviour on
`w` with `u` prepended (and stub offsets shifted by `u.length`). -/

/-- Prepend `u` to the sink of a serializer result. -/
def shiftSer (u : W) :
    Except EncErr (W × Nat) → Except EncErr (W × Nat)
  | .error e => .error e
  | .ok (w, n) => .ok (u ++ w, n)

/-- Prepend `u` to the sink of a sequence-elements result. -/
def shiftSeq (u : W) :
    Except EncErr (W × Nat × Bool) → Except EncErr (W × Nat × Bool)
  | .error e => .error e
  | .ok (w, tot, lz) => .ok (u ++ w, tot, lz)

/-- Prepend `u` to the sink of a key-serializer result, shifting the
recorded stub offset and value position. -/
def shiftKey (u : W) :
    Except EncErr (W × Option (Nat × Nat) × Nat) →
      Except EncErr (W × Option (Nat × Nat) × Nat)
  | .error e => .error e
  | .ok (w, kb, n) =>
    .ok (u ++ w, kb.map (fun sp => (u.length + sp.1, u.length + sp.2)), n)

/-- Prepend `u` to the sink of a key-tuple-elements result, shifting the
recorded stub offset. -/
def shiftTup (u : W) :
    Except EncErr (W × Option Nat × Nat) →
      Except EncErr (W × Option Nat × Nat)
  | .error e => .error e
  | .ok (w, vb, n) => .ok (u ++ w, vb.map (fun s => u.length + s), n)

theorem vecSerializeBytes_shift (iso : Bool) (bs : List Nat) (u w : W) :
    vecSerializeBytes iso bs (u ++ w) =
      shiftSer u (vecSerializeBytes iso bs w) := by
  unfold vecSerializeBytes
  cases iso with
  | true => simp [shiftSer]
  | false =>
    cases h : size bs.length with
    | error e => simp [h, shiftSer]
    | ok vs => simp [h, shiftSer]

mutual

theorem vecEslSerialize_shift (cp : CodePage) (iso : Bool) (v : Value)
    (u w : W) : vecEslSerialize cp iso v (u ++ w) =
      shiftSer u (vecEslSerialize cp iso v w) := by
  match v with
  | .vBool b => simp [vecEslSerialize, shiftSer]
  | .vU8 n => simp [vecEslSerialize, shiftSer]
  | .vU16 n => simp [vecEslSerialize, shiftSer]
  | .vU32 n => simp [vecEslSerialize, shiftSer]
  | .vU64 n => simp [vecEslSerialize, shiftSer]
  | .vU128 n => simp [vecEslSerialize, shiftSer]
  | .vI8 i => simp [vecEslSerialize, shiftSer]
  | .vI16 i => simp [vecEslSerialize, shiftSer]
  | .vI32 i => simp [vecEslSerialize, shiftSer]
  | .vI64 i => simp [vecEslSerialize, shiftSer]
  | .vI128 i => simp [vecEslSerialize, shiftSer]
  | .vChar c =>
    simp only [vecEslSerialize]
    cases h : charByte cp c with
    | error e => simp [h, shiftSer]
    | ok b => simp [h, shiftSer]
  | .vStr s =>
    simp only [vecEslSerialize]
    cases h : strBytes cp s with
    | error e => simp [h, shiftSer]
    | ok bs => simp [h, vecSerializeBytes_shift]
  | .vBytes bs => simp [vecEslSerialize, vecSerializeBytes_shift]
  | .vUnit => simp [vecEslSerialize, shiftSer]
  | .vUnitStruct => simp [vecEslSerialize, shiftSer]
  | .vNewtypeStruct v1 =>
    simp only [vecEslSerialize]
    exact vecEslSerialize_shift cp iso v1 u w
  | .vNone =>
    cases iso with
    | true => simp [vecEslSerialize, shiftSer]
    | false => simp [vecEslSerialize, shiftSer]
  | .vSome v1 =>
    cases iso with
    | true =>
      simp only [vecEslSerialize, if_true]
      rw [vecEslSerialize_shift cp true v1 u w]
      cases h : vecEslSerialize cp true v1 w with
      | error e => simp [shiftSer]
      | ok p =>
        obtain ⟨w2, n⟩ := p
        by_cases hn : n = 0 <;> simp [shiftSer, hn]
    | false =>
      simp only [vecEslSerialize, if_false, Bool.false_eq_true,
        List.append_assoc]
      rw [vecEslSerialize_shift cp true v1 u (w ++ leBytes 4 SIZE_STUB)]
      cases h : vecEslSerialize cp true v1 (w ++ leBytes 4 SIZE_STUB) with
      | error e => simp [shiftSer]
      | ok p =>
        obtain ⟨w2, n⟩ := p
        by_cases hn : n = 0
        · simp [shiftSer, hn]
        · simp only [shiftSer, hn, if_neg, ite_false]
          rw [List.length_append,
            show u.length + w.length + 4 = u.length + (w.length + 4) by
              omega,
            endIsolate_shift u w2 w.length (w.length + 4)]
          cases h2 : endIsolate w2 w.length (w.length + 4) with
          | error e => simp [Except.map, shiftSer]
          | ok w3 => simp [Except.map, shiftSer]
  | .vUnitVariant idx =>
    by_cases hidx : idx ≠ 0
    · simp [vecEslSerialize, hidx, shiftSer]
    · cases iso with
      | true => simp [vecEslSerialize, hidx, shiftSer]
      | false => simp [vecEslSerialize, hidx, shiftSer]
  | .vNewtypeVariant idx v1 =>
    cases iso with
    | true =>
      simp only [vecEslSerialize, if_true]
      rw [vecEslSerialize_shift cp true v1 u w]
      cases h : vecEslSerialize cp true v1 w with
      | error e => simp [shiftSer]
      | ok p =>
        obtain ⟨w2, n⟩ := p
        cases h2 : size n with
        | error e => simp [h2, shiftSer]
        | ok vs =>
          by_cases hvs : idx ≠ vs <;> simp [h2, hvs, shiftSer]
    | false =>
      simp only [vecEslSerialize, if_false, Bool.false_eq_true,
        List.append_assoc]
      rw [vecEslSerialize_shift cp true v1 u (w ++ leBytes 4 idx)]
      cases h : vecEslSerialize cp true v1 (w ++ leBytes 4 idx) with
      | error e => simp [shiftSer]
      | ok p =>
        obtain ⟨w2, n⟩ := p
        cases h2 : size n with
        | error e => simp [h2, shiftSer]
        | ok vs =>
          by_cases hvs : idx ≠ vs <;> simp [h2, hvs, shiftSer]
  | .vTupleVariant idx fs =>
    cases iso with
    | true =>
      simp only [vecEslSerialize, if_true]
      rw [vecSerializeFields_shift cp (some fs.length) fs u w]
      cases h : vecSerializeFields cp (some fs.length) fs w with
      | error e => simp [shiftSer]
      | ok p =>
        obtain ⟨w2, n⟩ := p
        cases h2 : size n with
        | error e => simp [h2, shiftSer]
        | ok vs =>
          by_cases hvs : idx ≠ vs <;> simp [h2, hvs, shiftSer]
    | false =>
      simp only [vecEslSerialize, if_false, Bool.false_eq_true,
        List.append_assoc]
      rw [vecSerializeFields_shift cp none fs u (w ++ leBytes 4 idx)]
      cases h : vecSerializeFields cp none fs (w ++ leBytes 4 idx) with
      | error e => simp [shiftSer]
      | ok p =>
        obtain ⟨w2, n⟩ := p
        cases h2 : size n with
        | error e => simp [h2, shiftSer]
        | ok vs =>
          by_cases hvs : idx ≠ vs <;> simp [h2, hvs, shiftSer]
  | .vStructVariant idx fs =>
    cases iso with
    | true =>
      simp only [vecEslSerialize, if_true]
      rw [vecSerializeFields_shift cp (some fs.length) fs u w]
      cases h : vecSerializeFields cp (some fs.length) fs w with
      | error e => simp [shiftSer]
      | ok p =>
        obtain ⟨w2, n⟩ := p
        cases h2 : size n with
        | error e => simp [h2, shiftSer]
        | ok vs =>
          by_cases hvs : idx ≠ vs <;> simp [h2, hvs, shiftSer]
    | false =>
      simp only [vecEslSerialize, if_false, Bool.false_eq_true,
        List.append_assoc]
      rw [vecSerializeFields_shift cp none fs u (w ++ leBytes 4 idx)]
      cases h : vecSerializeFields cp none fs (w ++ leBytes 4 idx) with
      | error e => simp [shiftSer]
      | ok p =>
        obtain ⟨w2, n⟩ := p
        cases h2 : size n with
        | error e => simp [h2, shiftSer]
        | ok vs =>
          by_cases hvs : idx ≠ vs <;> simp [h2, hvs, shiftSer]
  | .vTuple fs =>
    simp only [vecEslSerialize]
    exact vecSerializeFields_shift cp _ fs u w
  | .vStruct fs =>
    simp only [vecEslSerialize]
    exact vecSerializeFields_shift cp _ fs u w
  | .vSeq es =>
    cases iso with
    | true =>
      simp only [vecEslSerialize, if_true]
      rw [vecSeqElements_shift cp es u w]
      cases h : vecSeqElements cp es w with
      | error e => simp [shiftSeq, shiftSer]
      | ok p =>
        obtain ⟨w2, tot, lz⟩ := p
        cases lz <;> simp [shiftSeq, shiftSer]
    | false =>
      simp only [vecEslSerialize, if_false, Bool.false_eq_true,
        List.append_assoc]
      rw [vecSeqElements_shift cp es u (w ++ leBytes 4 SIZE_STUB)]
      cases h : vecSeqElements cp es (w ++ leBytes 4 SIZE_STUB) with
      | error e => simp [shiftSeq, shiftSer]
      | ok p =>
        obtain ⟨w2, tot, lz⟩ := p
        cases lz with
        | true => simp [shiftSeq, shiftSer]
        | false =>
          simp only [shiftSeq, shiftSer, Bool.false_eq_true, if_neg,
            ite_false]
          rw [List.length_append,
            show u.length + w.length + 4 = u.length + (w.length + 4) by
              omega,
            endIsolate_shift u w2 w.length (w.length + 4)]
          cases h2 : endIsolate w2 w.length (w.length + 4) with
          | error e => simp [Except.map, shiftSer]
          | ok w3 => simp [Except.map, shiftSer]
  | .vMap ps =>
    simp only [vecEslSerialize]
    exact vecMapEntries_shift cp ps u w

theorem vecSerializeFields_shift (cp : CodePage) (cnt : Option Nat)
    (fs : List Value) (u w : W) : vecSerializeFields cp cnt fs (u ++ w) =
      shiftSer u (vecSerializeFields cp cnt fs w) := by
  match fs with
  | [] => simp [vecSerializeFields, shiftSer]
  | f :: rest =>
    match cnt with
    | some 0 => simp [vecSerializeFields, shiftSer]
    | some (k + 1) =>
      simp only [vecSerializeFields]
      rw [vecEslSerialize_shift cp (k == 0) f u w]
      cases h : vecEslSerialize cp (k == 0) f w with
      | error e => simp [shiftSer]
      | ok p =>
        obtain ⟨w1, n1⟩ := p
        simp only [shiftSer]
        rw [vecSerializeFields_shift cp (some k) rest u w1]
        cases h2 : vecSerializeFields cp (some k) rest w1 with
        | error e => simp [shiftSer]
        | ok q => obtain ⟨w2, n2⟩ := q; simp [shiftSer]
    | none =>
      simp only [vecSerializeFields]
      rw [vecEslSerialize_shift cp false f u w]
      cases h : vecEslSerialize cp false f w with
      | error e => simp [shiftSer]
      | ok p =>
        obtain ⟨w1, n1⟩ := p
        simp only [shiftSer]
        rw [vecSerializeFields_shift cp none rest u w1]
        cases h2 : vecSerializeFields cp none rest w1 with
        | error e => simp [shiftSer]
        | ok q => obtain ⟨w2, n2⟩ := q; simp [shiftSer]

theorem vecSeqElements_shift (cp : CodePage) (es : List Value) (u w : W) :
    vecSeqElements cp es (u ++ w) = shiftSeq u (vecSeqElements cp es w) := by
  match es with
  | [] => simp [vecSeqElements, shiftSeq]
  | e :: rest =>
    simp only [vecSeqElements]
    rw [vecEslSerialize_shift cp false e u w]
    cases h : vecEslSerialize cp false e w with
    | error e1 => simp [shiftSer, shiftSeq]
    | ok p =>
      obtain ⟨w1, n⟩ := p
      match rest with
      | [] => simp [shiftSer, shiftSeq]
      | r :: rs =>
        simp only [shiftSer]
        rw [vecSeqElements_shift cp (r :: rs) u w1]
        cases h2 : vecSeqElements cp (r :: rs) w1 with
        | error e1 => simp [shiftSeq]
        | ok q => obtain ⟨w2, tot, lz⟩ := q; simp [shiftSeq]

theorem vecMapEntries_shift (cp : CodePage) (ps : List (Value × Value))
    (u w : W) : vecMapEntries cp ps (u ++ w) =
      shiftSer u (vecMapEntries cp ps w) := by
  match ps with
  | [] => simp [vecMapEntries, shiftSer]
  | (k, v) :: rest =>
    simp only [vecMapEntries]
    rw [vecKeySerialize_shift cp k u w]
    cases h : vecKeySerialize cp k w with
    | error e => simp [shiftKey, shiftSer]
    | ok p =>
      obtain ⟨w1, kb, ksize⟩ := p
      match kb with
      | some (s, q) =>
        simp only [shiftKey, Option.map]
        rw [vecEslSerialize_shift cp true v u w1]
        cases h2 : vecEslSerialize cp true v w1 with
        | error e => simp [shiftSer]
        | ok p2 =>
          obtain ⟨w2, vsize⟩ := p2
          simp only [shiftSer]
          rw [endIsolate_shift u w2 s q]
          cases h3 : endIsolate w2 s q with
          | error e => simp [Except.map, shiftSer]
          | ok w3 =>
            simp only [Except.map, shiftSer]
            rw [vecMapEntries_shift cp rest u w3]
            cases h4 : vecMapEntries cp rest w3 with
            | error e => simp [shiftSer]
            | ok q4 => obtain ⟨w4, tot⟩ := q4; simp [shiftSer]
      | none =>
        simp only [shiftKey, Option.map, List.append_assoc]
        rw [vecEslSerialize_shift cp true v u (w1 ++ leBytes 4 SIZE_STUB)]
        cases h2 : vecEslSerialize cp true v (w1 ++ leBytes 4 SIZE_STUB) with
        | error e => simp [shiftSer]
        | ok p2 =>
          obtain ⟨w2, vsize⟩ := p2
          simp only [shiftSer]
          rw [List.length_append,
            show u.length + w1.length + 4 = u.length + (w1.length + 4) by
              omega,
            endIsolate_shift u w2 w1.length (w1.length + 4)]
          cases h3 : endIsolate w2 w1.length (w1.length + 4) with
          | error e => simp [Except.map, shiftSer]
          | ok w3 =>
            simp only [Except.map, shiftSer]
            rw [vecMapEntries_shift cp rest u w3]
            cases h4 : vecMapEntries cp rest w3 with
            | error e => simp [shiftSer]
            | ok q4 => obtain ⟨w4, tot⟩ := q4; simp [shiftSer]

theorem vecKeySerialize_shift (cp : CodePage) (v : Value) (u w : W) :
    vecKeySerialize cp v (u ++ w) = shiftKey u (vecKeySerialize cp v w) := by
  match v with
  | .vBool b => simp [vecKeySerialize, shiftKey]
  | .vU8 n => simp [vecKeySerialize, shiftKey]
  | .vU16 n => simp [vecKeySerialize, shiftKey]
  | .vU32 n => simp [vecKeySerialize, shiftKey]
  | .vU64 n => simp [vecKeySerialize, shiftKey]
  | .vU128 n => simp [vecKeySerialize, shiftKey]
  | .vI8 i => simp [vecKeySerialize, shiftKey]
  | .vI16 i => simp [vecKeySerialize, shiftKey]
  | .vI32 i => simp [vecKeySerialize, shiftKey]
  | .vI64 i => simp [vecKeySerialize, shiftKey]
  | .vI128 i => simp [vecKeySerialize, shiftKey]
  | .vChar c =>
    simp only [vecKeySerialize]
    cases h : charByte cp c with
    | error e => simp [h, shiftKey]
    | ok b => simp [h, shiftKey]
  | .vStr s =>
    simp only [vecKeySerialize]
    cases h : strBytes cp s with
    | error e => simp [h, shiftKey]
    | ok bs =>
      cases h2 : size bs.length with
      | error e => simp [h, h2, shiftKey]
      | ok vs => simp [h, h2, shiftKey]
  | .vBytes bs =>
    simp only [vecKeySerialize]
    cases h2 : size bs.length with
    | error e => simp [h2, shiftKey]
    | ok vs => simp [h2, shiftKey]
  | .vUnit => simp [vecKeySerialize, shiftKey]
  | .vUnitStruct => simp [vecKeySerialize, shiftKey]
  | .vNewtypeStruct v1 =>
    simp only [vecKeySerialize]
    rw [vecEslSerialize_shift cp false v1 u w]
    cases h : vecEslSerialize cp false v1 w with
    | error e => simp [shiftSer, shiftKey]
    | ok p => obtain ⟨w1, n⟩ := p; simp [shiftSer, shiftKey]
  | .vNone => simp [vecKeySerialize, shiftKey]
  | .vSome v1 =>
    simp only [vecKeySerialize, List.append_assoc]
    rw [vecEslSerialize_shift cp true v1 u (w ++ leBytes 4 SIZE_STUB)]
    cases h : vecEslSerialize cp true v1 (w ++ leBytes 4 SIZE_STUB) with
    | error e => simp [shiftSer, shiftKey]
    | ok p =>
      obtain ⟨w2, n⟩ := p
      by_cases hn : n = 0
      · simp [shiftSer, shiftKey, hn]
      · simp only [shiftSer, shiftKey, hn, if_neg, ite_false]
        rw [List.length_append,
          show u.length + w.length + 4 = u.length + (w.length + 4) by omega,
          endIsolate_shift u w2 w.length (w.length + 4)]
        cases h2 : endIsolate w2 w.length (w.length + 4) with
        | error e => simp [Except.map, shiftKey]
        | ok w3 => simp [Except.map, shiftKey]
  | .vUnitVariant idx =>
    by_cases hidx : idx ≠ 0 <;> simp [vecKeySerialize, hidx, shiftKey]
  | .vNewtypeVariant idx v1 =>
    simp only [vecKeySerialize, List.append_assoc]
    rw [vecEslSerialize_shift cp true v1 u (w ++ leBytes 4 idx)]
    cases h : vecEslSerialize cp true v1 (w ++ leBytes 4 idx) with
    | error e => simp [shiftSer, shiftKey]
    | ok p =>
      obtain ⟨w2, n⟩ := p
      cases h2 : size n with
      | error e => simp [h2, shiftSer, shiftKey]
      | ok vs =>
        by_cases hvs : idx ≠ vs <;> simp [h2, hvs, shiftSer, shiftKey]
  | .vTupleVariant idx fs =>
    simp only [vecKeySerialize, List.append_assoc]
    rw [vecKeySerializeFields_shift cp fs u (w ++ leBytes 4 idx)]
    cases h : vecKeySerializeFields cp fs (w ++ leBytes 4 idx) with
    | error e => simp [shiftSer, shiftKey]
    | ok p =>
      obtain ⟨w2, n⟩ := p
      cases h2 : size n with
      | error e => simp [h2, shiftSer, shiftKey]
      | ok vs =>
        by_cases hvs : idx ≠ vs <;> simp [h2, hvs, shiftSer, shiftKey]
  | .vStructVariant idx fs =>
    simp only [vecKeySerialize, List.append_assoc]
    rw [vecKeySerializeFields_shift cp fs u (w ++ leBytes 4 idx)]
    cases h : vecKeySerializeFields cp fs (w ++ leBytes 4 idx) with
    | error e => simp [shiftSer, shiftKey]
    | ok p =>
      obtain ⟨w2, n⟩ := p
      cases h2 : size n with
      | error e => simp [h2, shiftSer, shiftKey]
      | ok vs =>
        by_cases hvs : idx ≠ vs <;> simp [h2, hvs, shiftSer, shiftKey]
  | .vTuple fs =>
    simp only [vecKeySerialize]
    have h0 : (none : Option Nat).map (fun s => u.length + s) = none := rfl
    rw [← h0, vecKeyTupleElements_shift cp fs u w none]
    cases h : vecKeyTupleElements cp fs w none with
    | error e => simp [h, shiftTup, shiftKey]
    | ok p =>
      obtain ⟨w1, vb, n⟩ := p
      match vb with
      | none => simp [h, shiftTup, shiftKey]
      | some s => simp [h, shiftTup, shiftKey, Nat.add_comm]
  | .vStruct fs =>
    simp only [vecKeySerialize]
    rw [vecKeySerializeFields_shift cp fs u w]
    cases h : vecKeySerializeFields cp fs w with
    | error e => simp [shiftSer, shiftKey]
    | ok p => obtain ⟨w1, n⟩ := p; simp [shiftSer, shiftKey]
  | .vSeq es =>
    simp only [vecKeySerialize, List.append_assoc]
    rw [vecSeqElements_shift cp es u (w ++ leBytes 4 SIZE_STUB)]
    cases h : vecSeqElements cp es (w ++ leBytes 4 SIZE_STUB) with
    | error e => simp [shiftSeq, shiftKey]
    | ok p =>
      obtain ⟨w2, tot, lz⟩ := p
      cases lz with
      | true => simp [shiftSeq, shiftKey]
      | false =>
        simp only [shiftSeq, shiftKey, Bool.false_eq_true, if_neg,
          ite_false]
        rw [List.length_append,
          show u.length + w.length + 4 = u.length + (w.length + 4) by omega,
          endIsolate_shift u w2 w.length (w.length + 4)]
        cases h2 : endIsolate w2 w.length (w.length + 4) with
        | error e => simp [Except.map, shiftKey]
        | ok w3 => simp [Except.map, shiftKey]
  | .vMap ps =>
    simp only [vecKeySerialize]
    rw [vecMapEntries_shift cp ps u w]
    cases h : vecMapEntries cp ps w with
    | error e => simp [shiftSer, shiftKey]
    | ok p => obtain ⟨w1, tot⟩ := p; simp [shiftSer, shiftKey]

theorem vecKeySerializeFields_shift (cp : CodePage) (fs : List Value)
    (u w : W) : vecKeySerializeFields cp fs (u ++ w) =
      shiftSer u (vecKeySerializeFields cp fs w) := by
  match fs with
  | [] => simp [vecKeySerializeFields, shiftSer]
  | f :: rest =>
    simp only [vecKeySerializeFields]
    rw [vecEslSerialize_shift cp false f u w]
    cases h : vecEslSerialize cp false f w with
    | error e => simp [shiftSer]
    | ok p =>
      obtain ⟨w1, n1⟩ := p
      simp only [shiftSer]
      rw [vecKeySerializeFields_shift cp rest u w1]
      cases h2 : vecKeySerializeFields cp rest w1 with
      | error e => simp [shiftSer]
      | ok q => obtain ⟨w2, n2⟩ := q; simp [shiftSer]

theorem vecKeyTupleElements_shift (cp : CodePage) (fs : List Value)
    (u w : W) (vb : Option Nat) :
    vecKeyTupleElements cp fs (u ++ w) (vb.map (fun s => u.length + s)) =
      shiftTup u (vecKeyTupleElements cp fs w vb) := by
  match fs with
  | [] => simp [vecKeyTupleElements, shiftTup]
  | f :: rest =>
    match vb with
    | some s0 =>
      simp only [vecKeyTupleElements, Option.map]
      rw [vecEslSerialize_shift cp false f u w]
      cases h : vecEslSerialize cp false f w with
      | error e => simp [shiftSer, shiftTup]
      | ok p =>
        obtain ⟨w1, n1⟩ := p
        simp only [shiftSer]
        have h0 : (some (u.length + s0)) =
            (some s0).map (fun s => u.length + s) := rfl
        rw [h0, vecKeyTupleElements_shift cp rest u w1 (some s0)]
        cases h2 : vecKeyTupleElements cp rest w1 (some s0) with
        | error e => simp [shiftTup]
        | ok q => obtain ⟨w2, vb2, n2⟩ := q; simp [shiftTup]
    | none =>
      simp only [vecKeyTupleElements, Option.map]
      rw [vecEslSerialize_shift cp false f u w]
      cases h : vecEslSerialize cp false f w with
      | error e => simp [shiftSer, shiftTup]
      | ok p =>
        obtain ⟨w1, n1⟩ := p
        simp only [shiftSer, List.append_assoc]
        have h0 : (some ((u ++ w1).length)) =
            (some w1.length).map (fun s => u.length + s) := by
          simp
        rw [h0, vecKeyTupleElements_shift cp rest u
          (w1 ++ leBytes 4 SIZE_STUB) (some w1.length)]
        cases h2 : vecKeyTupleElements cp rest (w1 ++ leBytes 4 SIZE_STUB)
            (some w1.length) with
        | error e => simp [shiftTup]
        | ok q => obtain ⟨w2, vb2, n2⟩ := q; simp [shiftTup]

end

/-! ### The returned size never exceeds the appended byte count

The streaming serializers return `usize` totals accumulated from the sizes
of their sub-calls.  These totals are bounded by the number of bytes
actually appended (they can fall short of it: the `end` of
`VecBaseStructVariantSerializer` drops the 4 discriminant bytes of a
non-isolated tuple or struct variant). -/

theorem writeU32At_length_ge (w : W) (off v : Nat) :
    w.length ≤ (writeU32At w off v).length := by
  simp [writeU32At, leBytes_length]
  omega

theorem endIsolate_ok_ge {w : W} {s p : Nat} {w2 : W}
    (h : endIsolate w s p = .ok w2) : w.length ≤ w2.length := by
  unfold endIsolate at h
  split at h
  · cases h
  · simp only [Except.ok.injEq] at h
    subst h
    exact writeU32At_length_ge w s _

theorem endIsolate_ok_length {w : W} {s p : Nat} {w2 : W}
    (h : endIsolate w s p = .ok w2) (hs : s + 4 ≤ w.length) :
    w2.length = w.length := by
  unfold endIsolate at h
  split at h
  · cases h
  · simp only [Except.ok.injEq] at h
    subst h
    exact writeU32At_length w s _ hs

theorem vecSerializeBytes_sizeLe {iso : Bool} {bs : List Nat} {w w2 : W}
    {n : Nat} (h : vecSerializeBytes iso bs w = .ok (w2, n)) :
    w.length + n ≤ w2.length := by
  unfold vecSerializeBytes at h
  split at h
  · simp only [Except.ok.injEq, Prod.mk.injEq] at h
    obtain ⟨h1, h2⟩ := h; subst h1; subst h2; simp
  · split at h
    · cases h
    · simp only [Except.ok.injEq, Prod.mk.injEq] at h
      obtain ⟨h1, h2⟩ := h; subst h1; subst h2
      simp [leBytes_length]

mutual

theorem vecEslSerialize_sizeLe (cp : CodePage) (iso : Bool) (v : Value)
    (w w2 : W) (n : Nat) (h : vecEslSerialize cp iso v w = .ok (w2, n)) :
    w.length + n ≤ w2.length := by
  match v with
  | .vBool b =>
    simp only [vecEslSerialize, Except.ok.injEq, Prod.mk.injEq] at h
    obtain ⟨h1, h2⟩ := h; subst h1; subst h2; simp
  | .vU8 m =>
    simp only [vecEslSerialize, Except.ok.injEq, Prod.mk.injEq] at h
    obtain ⟨h1, h2⟩ := h; subst h1; subst h2; simp [leBytes_length]
  | .vU16 m =>
    simp only [vecEslSerialize, Except.ok.injEq, Prod.mk.injEq] at h
    obtain ⟨h1, h2⟩ := h; subst h1; subst h2; simp [leBytes_length]
  | .vU32 m =>
    simp only [vecEslSerialize, Except.ok.injEq, Prod.mk.injEq] at h
    obtain ⟨h1, h2⟩ := h; subst h1; subst h2; simp [leBytes_length]
  | .vU64 m =>
    simp only [vecEslSerialize, Except.ok.injEq, Prod.mk.injEq] at h
    obtain ⟨h1, h2⟩ := h; subst h1; subst h2; simp [leBytes_length]
  | .vU128 m =>
    simp only [vecEslSerialize, Except.ok.injEq, Prod.mk.injEq] at h
    obtain ⟨h1, h2⟩ := h; subst h1; subst h2; simp [leBytes_length]
  | .vI8 i =>
    simp only [vecEslSerialize, Except.ok.injEq, Prod.mk.injEq] at h
    obtain ⟨h1, h2⟩ := h; subst h1; subst h2
    simp [intLeBytes, leBytes_length]
  | .vI16 i =>
    simp only [vecEslSerialize, Except.ok.injEq, Prod.mk.injEq] at h
    obtain ⟨h1, h2⟩ := h; subst h1; subst h2
    simp [intLeBytes, leBytes_length]
  | .vI32 i =>
    simp only [vecEslSerialize, Except.ok.injEq, Prod.mk.injEq] at h
    obtain ⟨h1, h2⟩ := h; subst h1; subst h2
    simp [intLeBytes, leBytes_length]
  | .vI64 i =>
    simp only [vecEslSerialize, Except.ok.injEq, Prod.mk.injEq] at h
    obtain ⟨h1, h2⟩ := h; subst h1; subst h2
    simp [intLeBytes, leBytes_length]
  | .vI128 i =>
    simp only [vecEslSerialize, Except.ok.injEq, Prod.mk.injEq] at h
    obtain ⟨h1, h2⟩ := h; subst h1; subst h2
    simp [intLeBytes, leBytes_length]
  | .vChar c =>
    simp only [vecEslSerialize] at h
    split at h
    · cases h
    · simp only [Except.ok.injEq, Prod.mk.injEq] at h
      obtain ⟨h1, h2⟩ := h; subst h1; subst h2; simp
  | .vStr s =>
    simp only [vecEslSerialize] at h
    split at h
    · cases h
    · exact vecSerializeBytes_sizeLe h
  | .vBytes bs =>
    simp only [vecEslSerialize] at h
    exact vecSerializeBytes_sizeLe h
  | .vUnit =>
    simp only [vecEslSerialize, Except.ok.injEq, Prod.mk.injEq] at h
    obtain ⟨h1, h2⟩ := h; subst h1; subst h2; simp
  | .vUnitStruct =>
    simp only [vecEslSerialize, Except.ok.injEq, Prod.mk.injEq] at h
    obtain ⟨h1, h2⟩ := h; subst h1; subst h2; simp
  | .vNewtypeStruct v1 =>
    simp only [vecEslSerialize] at h
    exact vecEslSerialize_sizeLe cp iso v1 w w2 n h
  | .vNone =>
    simp only [vecEslSerialize] at h
    split at h <;>
      (simp only [Except.ok.injEq, Prod.mk.injEq] at h
       obtain ⟨h1, h2⟩ := h; subst h1; subst h2; simp [leBytes_length])
  | .vSome v1 =>
    simp only [vecEslSerialize] at h
    split at h
    · split at h
      · cases h
      · rename_i w1 n1 hv
        split at h
        · cases h
        · simp only [Except.ok.injEq, Prod.mk.injEq] at h
          obtain ⟨h1, h2⟩ := h; subst h1; subst h2
          exact vecEslSerialize_sizeLe cp true v1 _ _ _ hv
    · split at h
      · cases h
      · rename_i w1 n1 hv
        split at h
        · cases h
        · split at h
          · cases h
          · rename_i w3 he
            simp only [Except.ok.injEq, Prod.mk.injEq] at h
            obtain ⟨h1, h2⟩ := h; subst h1; subst h2
            have hb := vecEslSerialize_sizeLe cp true v1 _ _ _ hv
            have hg := endIsolate_ok_ge he
            simp [leBytes_length] at hb
            omega
  | .vUnitVariant idx =>
    simp only [vecEslSerialize] at h
    split at h
    · cases h
    · split at h <;>
        (simp only [Except.ok.injEq, Prod.mk.injEq] at h
         obtain ⟨h1, h2⟩ := h; subst h1; subst h2; simp [leBytes_length])
  | .vNewtypeVariant idx v1 =>
    simp only [vecEslSerialize] at h
    split at h
    · cases h
    · rename_i w1 n1 hv
      split at h
      · cases h
      · split at h
        · cases h
        · simp only [Except.ok.injEq, Prod.mk.injEq] at h
          obtain ⟨h1, h2⟩ := h; subst h1; subst h2
          have hb := vecEslSerialize_sizeLe cp true v1 _ _ _ hv
          cases iso with
          | true => simpa using hb
          | false => simp [leBytes_length] at hb ⊢; omega
  | .vTupleVariant idx fs =>
    simp only [vecEslSerialize] at h
    split at h
    · cases h
    · rename_i w1 n1 hv
      split at h
      · cases h
      · split at h
        · cases h
        · simp only [Except.ok.injEq, Prod.mk.injEq] at h
          obtain ⟨h1, h2⟩ := h; subst h1; subst h2
          have hb := vecSerializeFields_sizeLe cp _ fs _ _ _ hv
          cases iso with
          | true => simpa using hb
          | false => simp [leBytes_length] at hb; omega
  | .vStructVariant idx fs =>
    simp only [vecEslSerialize] at h
    split at h
    · cases h
    · rename_i w1 n1 hv
      split at h
      · cases h
      · split at h
        · cases h
        · simp only [Except.ok.injEq, Prod.mk.injEq] at h
          obtain ⟨h1, h2⟩ := h; subst h1; subst h2
          have hb := vecSerializeFields_sizeLe cp _ fs _ _ _ hv
          cases iso with
          | true => simpa using hb
          | false => simp [leBytes_length] at hb; omega
  | .vTuple fs =>
    simp only [vecEslSerialize] at h
    exact vecSerializeFields_sizeLe cp _ fs _ _ _ h
  | .vStruct fs =>
    simp only [vecEslSerialize] at h
    exact vecSerializeFields_sizeLe cp _ fs _ _ _ h
  | .vSeq es =>
    simp only [vecEslSerialize] at h
    split at h
    · split at h
      · cases h
      · rename_i w1 tot lz hv
        split at h
        · cases h
        · simp only [Except.ok.injEq, Prod.mk.injEq] at h
          obtain ⟨h1, h2⟩ := h; subst h1; subst h2
          exact vecSeqElements_sizeLe cp es _ _ _ _ hv
    · split at h
      · cases h
      · rename_i w1 tot lz hv
        split at h
        · cases h
        · split at h
          · cases h
          · rename_i w3 he
            simp only [Except.ok.injEq, Prod.mk.injEq] at h
            obtain ⟨h1, h2⟩ := h; subst h1; subst h2
            have hb := vecSeqElements_sizeLe cp es _ _ _ _ hv
            have hg := endIsolate_ok_ge he
            simp [leBytes_length] at hb
            omega
  | .vMap ps =>
    simp only [vecEslSerialize] at h
    exact vecMapEntries_sizeLe cp ps _ _ _ h

theorem vecSerializeFields_sizeLe (cp : CodePage) (cnt : Option Nat)
    (fs : List Value) (w w2 : W) (n : Nat)
    (h : vecSerializeFields cp cnt fs w = .ok (w2, n)) :
    w.length + n ≤ w2.length := by
  match fs with
  | [] =>
    simp only [vecSerializeFields, Except.ok.injEq, Prod.mk.injEq] at h
    obtain ⟨h1, h2⟩ := h; subst h1; subst h2; simp
  | f :: rest =>
    match cnt with
    | some 0 => simp only [vecSerializeFields] at h; cases h
    | some (k + 1) =>
      simp only [vecSerializeFields] at h
      split at h
      · cases h
      · rename_i w1 n1 hv
        split at h
        · cases h
        · rename_i w3 n2 hr
          simp only [Except.ok.injEq, Prod.mk.injEq] at h
          obtain ⟨h1, h2⟩ := h; subst h1; subst h2
          have b1 := vecEslSerialize_sizeLe cp (k == 0) f _ _ _ hv
          have b2 := vecSerializeFields_sizeLe cp (some k) rest _ _ _ hr
          omega
    | none =>
      simp only [vecSerializeFields] at h
      split at h
      · cases h
      · rename_i w1 n1 hv
        split at h
        · cases h
        · rename_i w3 n2 hr
          simp only [Except.ok.injEq, Prod.mk.injEq] at h
          obtain ⟨h1, h2⟩ := h; subst h1; subst h2
          have b1 := vecEslSerialize_sizeLe cp false f _ _ _ hv
          have b2 := vecSerializeFields_sizeLe cp none rest _ _ _ hr
          omega

theorem vecSeqElements_sizeLe (cp : CodePage) (es : List Value) (w w2 : W)
    (tot : Nat) (lz : Bool)
    (h : vecSeqElements cp es w = .ok (w2, tot, lz)) :
    w.length + tot ≤ w2.length := by
  match es with
  | [] =>
    simp only [vecSeqElements, Except.ok.injEq, Prod.mk.injEq] at h
    obtain ⟨h1, h2, h3⟩ := h; subst h1; subst h2; simp
  | e :: rest =>
    match rest with
    | [] =>
      simp only [vecSeqElements] at h
      split at h
      · cases h
      · rename_i w1 n1 hv
        have b1 := vecEslSerialize_sizeLe cp false e _ _ _ hv
        simp only [Except.ok.injEq, Prod.mk.injEq] at h
        obtain ⟨h1, h2, h3⟩ := h; subst h1; subst h2
        omega
    | r :: rs =>
      simp only [vecSeqElements] at h
      split at h
      · cases h
      · rename_i w1 n1 hv
        have b1 := vecEslSerialize_sizeLe cp false e _ _ _ hv
        split at h
        · cases h
        · rename_i w3 t2 lz2 hr
          simp only [Except.ok.injEq, Prod.mk.injEq] at h
          obtain ⟨h1, h2, h3⟩ := h; subst h1; subst h2
          have b2 := vecSeqElements_sizeLe cp (r :: rs) _ _ _ _ hr
          omega

theorem vecMapEntries_sizeLe (cp : CodePage) (ps : List (Value × Value))
    (w w2 : W) (tot : Nat) (h : vecMapEntries cp ps w = .ok (w2, tot)) :
    w.length + tot ≤ w2.length := by
  match ps with
  | [] =>
    simp only [vecMapEntries, Except.ok.injEq, Prod.mk.injEq] at h
    obtain ⟨h1, h2⟩ := h; subst h1; subst h2; simp
  | (k, v) :: rest =>
    simp only [vecMapEntries] at h
    split at h
    · cases h
    · rename_i w1 s q ksize hk
      have bk := vecKeySerialize_sizeLe cp k _ _ _ _ hk
      split at h
      · cases h
      · rename_i w3 vsize hv
        split at h
        · cases h
        · rename_i w4 he
          split at h
          · cases h
          · rename_i w5 t2 hr
            simp only [Except.ok.injEq, Prod.mk.injEq] at h
            obtain ⟨h1, h2⟩ := h; subst h1; subst h2
            have bv := vecEslSerialize_sizeLe cp true v _ _ _ hv
            have bg := endIsolate_ok_ge he
            have br := vecMapEntries_sizeLe cp rest _ _ _ hr
            omega
    · rename_i w1 ksize hk
      have bk := vecKeySerialize_sizeLe cp k _ _ _ _ hk
      split at h
      · cases h
      · rename_i w3 vsize hv
        split at h
        · cases h
        · rename_i w4 he
          split at h
          · cases h
          · rename_i w5 t2 hr
            simp only [Except.ok.injEq, Prod.mk.injEq] at h
            obtain ⟨h1, h2⟩ := h; subst h1; subst h2
            have bv := vecEslSerialize_sizeLe cp true v _ _ _ hv
            have bg := endIsolate_ok_ge he
            have br := vecMapEntries_sizeLe cp rest _ _ _ hr
            simp [leBytes_length] at bv
            omega

theorem vecKeySerialize_sizeLe (cp : CodePage) (v : Value) (w w2 : W)
    (kb : Option (Nat × Nat)) (n : Nat)
    (h : vecKeySerialize cp v w = .ok (w2, kb, n)) :
    w.length + n ≤ w2.length := by
  match v with
  | .vBool b =>
    simp only [vecKeySerialize, Except.ok.injEq, Prod.mk.injEq] at h
    obtain ⟨h1, h2, h3⟩ := h; subst h1; subst h3; simp
  | .vU8 m =>
    simp only [vecKeySerialize, Except.ok.injEq, Prod.mk.injEq] at h
    obtain ⟨h1, h2, h3⟩ := h; subst h1; subst h3; simp [leBytes_length]
  | .vU16 m =>
    simp only [vecKeySerialize, Except.ok.injEq, Prod.mk.injEq] at h
    obtain ⟨h1, h2, h3⟩ := h; subst h1; subst h3; simp [leBytes_length]
  | .vU32 m =>
    simp only [vecKeySerialize, Except.ok.injEq, Prod.mk.injEq] at h
    obtain ⟨h1, h2, h3⟩ := h; subst h1; subst h3; simp [leBytes_length]
  | .vU64 m =>
    simp only [vecKeySerialize, Except.ok.injEq, Prod.mk.injEq] at h
    obtain ⟨h1, h2, h3⟩ := h; subst h1; subst h3; simp [leBytes_length]
  | .vU128 m =>
    simp only [vecKeySerialize, Except.ok.injEq, Prod.mk.injEq] at h
    obtain ⟨h1, h2, h3⟩ := h; subst h1; subst h3; simp [leBytes_length]
  | .vI8 i =>
    simp only [vecKeySerialize, Except.ok.injEq, Prod.mk.injEq] at h
    obtain ⟨h1, h2, h3⟩ := h; subst h1; subst h3
    simp [intLeBytes, leBytes_length]
  | .vI16 i =>
    simp only [vecKeySerialize, Except.ok.injEq, Prod.mk.injEq] at h
    obtain ⟨h1, h2, h3⟩ := h; subst h1; subst h3
    simp [intLeBytes, leBytes_length]
  | .vI32 i =>
    simp only [vecKeySerialize, Except.ok.injEq, Prod.mk.injEq] at h
    obtain ⟨h1, h2, h3⟩ := h; subst h1; subst h3
    simp [intLeBytes, leBytes_length]
  | .vI64 i =>
    simp only [vecKeySerialize, Except.ok.injEq, Prod.mk.injEq] at h
    obtain ⟨h1, h2, h3⟩ := h; subst h1; subst h3
    simp [intLeBytes, leBytes_length]
  | .vI128 i =>
    simp only [vecKeySerialize, Except.ok.injEq, Prod.mk.injEq] at h
    obtain ⟨h1, h2, h3⟩ := h; subst h1; subst h3
    simp [intLeBytes, leBytes_length]
  | .vChar c =>
    simp only [vecKeySerialize] at h
    split at h
    · cases h
    · simp only [Except.ok.injEq, Prod.mk.injEq] at h
      obtain ⟨h1, h2, h3⟩ := h; subst h1; subst h3; simp
  | .vStr s =>
    simp only [vecKeySerialize] at h
    split at h
    · cases h
    · split at h
      · cases h
      · simp only [Except.ok.injEq, Prod.mk.injEq] at h
        obtain ⟨h1, h2, h3⟩ := h; subst h1; subst h3
        simp [leBytes_length]
  | .vBytes bs =>
    simp only [vecKeySerialize] at h
    split at h
    · cases h
    · simp only [Except.ok.injEq, Prod.mk.injEq] at h
      obtain ⟨h1, h2, h3⟩ := h; subst h1; subst h3
      simp [leBytes_length]
  | .vUnit =>
    simp only [vecKeySerialize, Except.ok.injEq, Prod.mk.injEq] at h
    obtain ⟨h1, h2, h3⟩ := h; subst h1; subst h3; simp
  | .vUnitStruct =>
    simp only [vecKeySerialize, Except.ok.injEq, Prod.mk.injEq] at h
    obtain ⟨h1, h2, h3⟩ := h; subst h1; subst h3; simp
  | .vNewtypeStruct v1 =>
    simp only [vecKeySerialize] at h
    split at h
    · cases h
    · rename_i w1 n1 hv
      simp only [Except.ok.injEq, Prod.mk.injEq] at h
      obtain ⟨h1, h2, h3⟩ := h; subst h1; subst h3
      exact vecEslSerialize_sizeLe cp false v1 _ _ _ hv
  | .vNone =>
    simp only [vecKeySerialize, Except.ok.injEq, Prod.mk.injEq] at h
    obtain ⟨h1, h2, h3⟩ := h; subst h1; subst h3; simp [leBytes_length]
  | .vSome v1 =>
    simp only [vecKeySerialize] at h
    split at h
    · cases h
    · rename_i w1 n1 hv
      split at h
      · cases h
      · split at h
        · cases h
        · rename_i w3 he
          simp only [Except.ok.injEq, Prod.mk.injEq] at h
          obtain ⟨h1, h2, h3⟩ := h; subst h1; subst h3
          have hb := vecEslSerialize_sizeLe cp true v1 _ _ _ hv
          have hg := endIsolate_ok_ge he
          simp [leBytes_length] at hb
          omega
  | .vUnitVariant idx =>
    simp only [vecKeySerialize] at h
    split at h
    · cases h
    · simp only [Except.ok.injEq, Prod.mk.injEq] at h
      obtain ⟨h1, h2, h3⟩ := h; subst h1; subst h3; simp [leBytes_length]
  | .vNewtypeVariant idx v1 =>
    simp only [vecKeySerialize] at h
    split at h
    · cases h
    · rename_i w1 n1 hv
      split at h
      · cases h
      · split at h
        · cases h
        · simp only [Except.ok.injEq, Prod.mk.injEq] at h
          obtain ⟨h1, h2, h3⟩ := h; subst h1; subst h3
          have hb := vecEslSerialize_sizeLe cp true v1 _ _ _ hv
          simp [leBytes_length] at hb
          omega
  | .vTupleVariant idx fs =>
    simp only [vecKeySerialize] at h
    split at h
    · cases h
    · rename_i w1 n1 hv
      split at h
      · cases h
      · split at h
        · cases h
        · simp only [Except.ok.injEq, Prod.mk.injEq] at h
          obtain ⟨h1, h2, h3⟩ := h; subst h1; subst h3
          have hb := vecKeySerializeFields_sizeLe cp fs _ _ _ hv
          simp [leBytes_length] at hb
          omega
  | .vStructVariant idx fs =>
    simp only [vecKeySerialize] at h
    split at h
    · cases h
    · rename_i w1 n1 hv
      split at h
      · cases h
      · split at h
        · cases h
        · simp only [Except.ok.injEq, Prod.mk.injEq] at h
          obtain ⟨h1, h2, h3⟩ := h; subst h1; subst h3
          have hb := vecKeySerializeFields_sizeLe cp fs _ _ _ hv
          simp [leBytes_length] at hb
          omega
  | .vTuple fs =>
    simp only [vecKeySerialize] at h
    split at h
    · cases h
    · rename_i w1 vb n1 hv
      simp only [Except.ok.injEq, Prod.mk.injEq] at h
      obtain ⟨h1, h2, h3⟩ := h; subst h1; subst h3
      exact (vecKeyTupleElements_sizeLe cp fs _ _ _ _ _ hv).1
  | .vStruct fs =>
    simp only [vecKeySerialize] at h
    split at h
    · cases h
    · rename_i w1 n1 hv
      simp only [Except.ok.injEq, Prod.mk.injEq] at h
      obtain ⟨h1, h2, h3⟩ := h; subst h1; subst h3
      exact vecKeySerializeFields_sizeLe cp fs _ _ _ hv
  | .vSeq es =>
    simp only [vecKeySerialize] at h
    split at h
    · cases h
    · rename_i w1 tot lz hv
      split at h
      · cases h
      · split at h
        · cases h
        · rename_i w3 he
          simp only [Except.ok.injEq, Prod.mk.injEq] at h
          obtain ⟨h1, h2, h3⟩ := h; subst h1; subst h3
          have hb := vecSeqElements_sizeLe cp es _ _ _ _ hv
          have hg := endIsolate_ok_ge he
          simp [leBytes_length] at hb
          omega
  | .vMap ps =>
    simp only [vecKeySerialize] at h
    split at h
    · cases h
    · rename_i w1 tot hv
      simp only [Except.ok.injEq, Prod.mk.injEq] at h
      obtain ⟨h1, h2, h3⟩ := h; subst h1; subst h3
      exact vecMapEntries_sizeLe cp ps _ _ _ hv

theorem vecKeySerializeFields_sizeLe (cp : CodePage) (fs : List Value)
    (w w2 : W) (n : Nat) (h : vecKeySerializeFields cp fs w = .ok (w2, n)) :
    w.length + n ≤ w2.length := by
  match fs with
  | [] =>
    simp only [vecKeySerializeFields, Except.ok.injEq, Prod.mk.injEq] at h
    obtain ⟨h1, h2⟩ := h; subst h1; subst h2; simp
  | f :: rest =>
    simp only [vecKeySerializeFields] at h
    split at h
    · cases h
    · rename_i w1 n1 hv
      split at h
      · cases h
      · rename_i w3 n2 hr
        simp only [Except.ok.injEq, Prod.mk.injEq] at h
        obtain ⟨h1, h2⟩ := h; subst h1; subst h2
        have b1 := vecEslSerialize_sizeLe cp false f _ _ _ hv
        have b2 := vecKeySerializeFields_sizeLe cp rest _ _ _ hr
        omega

theorem vecKeyTupleElements_sizeLe (cp : CodePage) (fs : List Value)
    (w w2 : W) (vb vb2 : Option Nat) (n : Nat)
    (h : vecKeyTupleElements cp fs w vb = .ok (w2, vb2, n)) :
    w.length + n ≤ w2.length ∧
      (∀ s, vb2 = some s → (s + 4 ≤ w2.length ∧ w.length ≤ s) ∨
        vb = some s) := by
  match fs with
  | [] =>
    simp only [vecKeyTupleElements, Except.ok.injEq, Prod.mk.injEq] at h
    obtain ⟨h1, h2, h3⟩ := h; subst h1; subst h2; subst h3
    exact ⟨by simp, fun s hs => Or.inr hs⟩
  | f :: rest =>
    match vb with
    | some s0 =>
      simp only [vecKeyTupleElements] at h
      split at h
      · cases h
      · rename_i w1 n1 hv
        split at h
        · cases h
        · rename_i w3 vb3 n2 hr
          simp only [Except.ok.injEq, Prod.mk.injEq] at h
          obtain ⟨h1, h2, h3⟩ := h; subst h1; subst h2; subst h3
          have b1 := vecEslSerialize_sizeLe cp false f _ _ _ hv
          obtain ⟨b2, hfact⟩ :=
            vecKeyTupleElements_sizeLe cp rest _ _ _ _ _ hr
          refine ⟨by omega, fun s hs => ?_⟩
          rcases hfact s hs with h4 | h4
          · exact Or.inl ⟨h4.1, by omega⟩
          · exact Or.inr h4
    | none =>
      simp only [vecKeyTupleElements] at h
      split at h
      · cases h
      · rename_i w1 n1 hv
        split at h
        · cases h
        · rename_i w3 vb3 n2 hr
          simp only [Except.ok.injEq, Prod.mk.injEq] at h
          obtain ⟨h1, h2, h3⟩ := h; subst h1; subst h2; subst h3
          have b1 := vecEslSerialize_sizeLe cp false f _ _ _ hv
          obtain ⟨b2, hfact⟩ :=
            vecKeyTupleElements_sizeLe cp rest _ _ _ _ _ hr
          simp [leBytes_length] at b2
          refine ⟨by omega, fun s hs => ?_⟩
          rcases hfact s hs with h4 | h4
          · obtain ⟨h41, h42⟩ := h4
            simp [leBytes_length] at h42
            exact Or.inl ⟨h41, by omega⟩
          · simp only [Option.some.injEq] at h4
            subst h4
            exact Or.inl ⟨by omega, by omega⟩

end

/-! ### On tuple/struct-variant-free values the returned size is exact

When no tuple variant and no struct variant occurs in the value, every
returned size equals the number of bytes appended to the sink. -/

theorem vecSerializeBytes_sizeEq {iso : Bool} {bs : List Nat} {w w2 : W}
    {n : Nat} (h : vecSerializeBytes iso bs w = .ok (w2, n)) :
    w2.length = w.length + n := by
  unfold vecSerializeBytes at h
  split at h
  · simp only [Except.ok.injEq, Prod.mk.injEq] at h
    obtain ⟨h1, h2⟩ := h; subst h1; subst h2; simp
  · split at h
    · cases h
    · simp only [Except.ok.injEq, Prod.mk.injEq] at h
      obtain ⟨h1, h2⟩ := h; subst h1; subst h2
      simp [leBytes_length]

mutual

theorem vecEslSerialize_sizeEq (cp : CodePage) (iso : Bool) (v : Value)
    (w w2 : W) (n : Nat) (hno : noTSVariants v = true)
    (h : vecEslSerialize cp iso v w = .ok (w2, n)) :
    w2.length = w.length + n := by
  match v with
  | .vBool b =>
    simp only [vecEslSerialize, Except.ok.injEq, Prod.mk.injEq] at h
    obtain ⟨h1, h2⟩ := h; subst h1; subst h2; simp
  | .vU8 m =>
    simp only [vecEslSerialize, Except.ok.injEq, Prod.mk.injEq] at h
    obtain ⟨h1, h2⟩ := h; subst h1; subst h2; simp [leBytes_length]
  | .vU16 m =>
    simp only [vecEslSerialize, Except.ok.injEq, Prod.mk.injEq] at h
    obtain ⟨h1, h2⟩ := h; subst h1; subst h2; simp [leBytes_length]
  | .vU32 m =>
    simp only [vecEslSerialize, Except.ok.injEq, Prod.mk.injEq] at h
    obtain ⟨h1, h2⟩ := h; subst h1; subst h2; simp [leBytes_length]
  | .vU64 m =>
    simp only [vecEslSerialize, Except.ok.injEq, Prod.mk.injEq] at h
    obtain ⟨h1, h2⟩ := h; subst h1; subst h2; simp [leBytes_length]
  | .vU128 m =>
    simp only [vecEslSerialize, Except.ok.injEq, Prod.mk.injEq] at h
    obtain ⟨h1, h2⟩ := h; subst h1; subst h2; simp [leBytes_length]
  | .vI8 i =>
    simp only [vecEslSerialize, Except.ok.injEq, Prod.mk.injEq] at h
    obtain ⟨h1, h2⟩ := h; subst h1; subst h2
    simp [intLeBytes, leBytes_length]
  | .vI16 i =>
    simp only [vecEslSerialize, Except.ok.injEq, Prod.mk.injEq] at h
    obtain ⟨h1, h2⟩ := h; subst h1; subst h2
    simp [intLeBytes, leBytes_length]
  | .vI32 i =>
    simp only [vecEslSerialize, Except.ok.injEq, Prod.mk.injEq] at h
    obtain ⟨h1, h2⟩ := h; subst h1; subst h2
    simp [intLeBytes, leBytes_length]
  | .vI64 i =>
    simp only [vecEslSerialize, Except.ok.injEq, Prod.mk.injEq] at h
    obtain ⟨h1, h2⟩ := h; subst h1; subst h2
    simp [intLeBytes, leBytes_length]
  | .vI128 i =>
    simp only [vecEslSerialize, Except.ok.injEq, Prod.mk.injEq] at h
    obtain ⟨h1, h2⟩ := h; subst h1; subst h2
    simp [intLeBytes, leBytes_length]
  | .vChar c =>
    simp only [vecEslSerialize] at h
    split at h
    · cases h
    · simp only [Except.ok.injEq, Prod.mk.injEq] at h
      obtain ⟨h1, h2⟩ := h; subst h1; subst h2; simp
  | .vStr s =>
    simp only [vecEslSerialize] at h
    split at h
    · cases h
    · exact vecSerializeBytes_sizeEq h
  | .vBytes bs =>
    simp only [vecEslSerialize] at h
    exact vecSerializeBytes_sizeEq h
  | .vUnit =>
    simp only [vecEslSerialize, Except.ok.injEq, Prod.mk.injEq] at h
    obtain ⟨h1, h2⟩ := h; subst h1; subst h2; simp
  | .vUnitStruct =>
    simp only [vecEslSerialize, Except.ok.injEq, Prod.mk.injEq] at h
    obtain ⟨h1, h2⟩ := h; subst h1; subst h2; simp
  | .vNewtypeStruct v1 =>
    simp only [noTSVariants] at hno
    simp only [vecEslSerialize] at h
    exact vecEslSerialize_sizeEq cp iso v1 w w2 n hno h
  | .vNone =>
    simp only [vecEslSerialize] at h
    split at h <;>
      (simp only [Except.ok.injEq, Prod.mk.injEq] at h
       obtain ⟨h1, h2⟩ := h; subst h1; subst h2; simp [leBytes_length])
  | .vSome v1 =>
    simp only [noTSVariants] at hno
    simp only [vecEslSerialize] at h
    split at h
    · split at h
      · cases h
      · rename_i w1 n1 hv
        split at h
        · cases h
        · simp only [Except.ok.injEq, Prod.mk.injEq] at h
          obtain ⟨h1, h2⟩ := h; subst h1; subst h2
          exact vecEslSerialize_sizeEq cp true v1 _ _ _ hno hv
    · split at h
      · cases h
      · rename_i w1 n1 hv
        split at h
        · cases h
        · split at h
          · cases h
          · rename_i w3 he
            simp only [Except.ok.injEq, Prod.mk.injEq] at h
            obtain ⟨h1, h2⟩ := h; subst h1; subst h2
            have hb := vecEslSerialize_sizeEq cp true v1 _ _ _ hno hv
            simp [leBytes_length] at hb
            have hg := endIsolate_ok_length he (by omega)
            omega
  | .vUnitVariant idx =>
    simp only [vecEslSerialize] at h
    split at h
    · cases h
    · split at h <;>
        (simp only [Except.ok.injEq, Prod.mk.injEq] at h
         obtain ⟨h1, h2⟩ := h; subst h1; subst h2; simp [leBytes_length])
  | .vNewtypeVariant idx v1 =>
    simp only [noTSVariants] at hno
    simp only [vecEslSerialize] at h
    split at h
    · cases h
    · rename_i w1 n1 hv
      split at h
      · cases h
      · split at h
        · cases h
        · simp only [Except.ok.injEq, Prod.mk.injEq] at h
          obtain ⟨h1, h2⟩ := h; subst h1; subst h2
          have hb := vecEslSerialize_sizeEq cp true v1 _ _ _ hno hv
          cases iso with
          | true => simpa using hb
          | false => simp [leBytes_length] at hb ⊢; omega
  | .vTupleVariant idx fs => simp [noTSVariants] at hno
  | .vStructVariant idx fs => simp [noTSVariants] at hno
  | .vTuple fs =>
    simp only [noTSVariants] at hno
    simp only [vecEslSerialize] at h
    exact vecSerializeFields_sizeEq cp _ fs _ _ _ hno h
  | .vStruct fs =>
    simp only [noTSVariants] at hno
    simp only [vecEslSerialize] at h
    exact vecSerializeFields_sizeEq cp _ fs _ _ _ hno h
  | .vSeq es =>
    simp only [noTSVariants] at hno
    simp only [vecEslSerialize] at h
    split at h
    · split at h
      · cases h
      · rename_i w1 tot lz hv
        split at h
        · cases h
        · simp only [Except.ok.injEq, Prod.mk.injEq] at h
          obtain ⟨h1, h2⟩ := h; subst h1; subst h2
          exact vecSeqElements_sizeEq cp es _ _ _ _ hno hv
    · split at h
      · cases h
      · rename_i w1 tot lz hv
        split at h
        · cases h
        · split at h
          · cases h
          · rename_i w3 he
            simp only [Except.ok.injEq, Prod.mk.injEq] at h
            obtain ⟨h1, h2⟩ := h; subst h1; subst h2
            have hb := vecSeqElements_sizeEq cp es _ _ _ _ hno hv
            simp [leBytes_length] at hb
            have hg := endIsolate_ok_length he (by omega)
            omega
  | .vMap ps =>
    simp only [noTSVariants] at hno
    simp only [vecEslSerialize] at h
    exact vecMapEntries_sizeEq cp ps _ _ _ hno h

theorem vecSerializeFields_sizeEq (cp : CodePage) (cnt : Option Nat)
    (fs : List Value) (w w2 : W) (n : Nat)
    (hno : noTSVariantsList fs = true)
    (h : vecSerializeFields cp cnt fs w = .ok (w2, n)) :
    w2.length = w.length + n := by
  match fs with
  | [] =>
    simp only [vecSerializeFields, Except.ok.injEq, Prod.mk.injEq] at h
    obtain ⟨h1, h2⟩ := h; subst h1; subst h2; simp
  | f :: rest =>
    simp only [noTSVariantsList, Bool.and_eq_true] at hno
    obtain ⟨hno1, hno2⟩ := hno
    match cnt with
    | some 0 => simp only [vecSerializeFields] at h; cases h
    | some (k + 1) =>
      simp only [vecSerializeFields] at h
      split at h
      · cases h
      · rename_i w1 n1 hv
        split at h
        · cases h
        · rename_i w3 n2 hr
          simp only [Except.ok.injEq, Prod.mk.injEq] at h
          obtain ⟨h1, h2⟩ := h; subst h1; subst h2
          have b1 := vecEslSerialize_sizeEq cp (k == 0) f _ _ _ hno1 hv
          have b2 :=
            vecSerializeFields_sizeEq cp (some k) rest _ _ _ hno2 hr
          omega
    | none =>
      simp only [vecSerializeFields] at h
      split at h
      · cases h
      · rename_i w1 n1 hv
        split at h
        · cases h
        · rename_i w3 n2 hr
          simp only [Except.ok.injEq, Prod.mk.injEq] at h
          obtain ⟨h1, h2⟩ := h; subst h1; subst h2
          have b1 := vecEslSerialize_sizeEq cp false f _ _ _ hno1 hv
          have b2 := vecSerializeFields_sizeEq cp none rest _ _ _ hno2 hr
          omega

theorem vecSeqElements_sizeEq (cp : CodePage) (es : List Value) (w w2 : W)
    (tot : Nat) (lz : Bool) (hno : noTSVariantsList es = true)
    (h : vecSeqElements cp es w = .ok (w2, tot, lz)) :
    w2.length = w.length + tot := by
  match es with
  | [] =>
    simp only [vecSeqElements, Except.ok.injEq, Prod.mk.injEq] at h
    obtain ⟨h1, h2, h3⟩ := h; subst h1; subst h2; simp
  | e :: rest =>
    simp only [noTSVariantsList, Bool.and_eq_true] at hno
    obtain ⟨hno1, hno2⟩ := hno
    match rest with
    | [] =>
      simp only [vecSeqElements] at h
      split at h
      · cases h
      · rename_i w1 n1 hv
        have b1 := vecEslSerialize_sizeEq cp false e _ _ _ hno1 hv
        simp only [Except.ok.injEq, Prod.mk.injEq] at h
        obtain ⟨h1, h2, h3⟩ := h; subst h1; subst h2
        omega
    | r :: rs =>
      simp only [vecSeqElements] at h
      split at h
      · cases h
      · rename_i w1 n1 hv
        have b1 := vecEslSerialize_sizeEq cp false e _ _ _ hno1 hv
        split at h
        · cases h
        · rename_i w3 t2 lz2 hr
          simp only [Except.ok.injEq, Prod.mk.injEq] at h
          obtain ⟨h1, h2, h3⟩ := h; subst h1; subst h2
          have b2 := vecSeqElements_sizeEq cp (r :: rs) _ _ _ _ hno2 hr
          omega

theorem vecMapEntries_sizeEq (cp : CodePage) (ps : List (Value × Value))
    (w w2 : W) (tot : Nat) (hno : noTSVariantsPairs ps = true)
    (h : vecMapEntries cp ps w = .ok (w2, tot)) :
    w2.length = w.length + tot := by
  match ps with
  | [] =>
    simp only [vecMapEntries, Except.ok.injEq, Prod.mk.injEq] at h
    obtain ⟨h1, h2⟩ := h; subst h1; subst h2; simp
  | (k, v) :: rest =>
    simp only [noTSVariantsPairs, Bool.and_eq_true] at hno
    obtain ⟨hnok, hnov, hnor⟩ := hno
    simp only [vecMapEntries] at h
    split at h
    · cases h
    · rename_i w1 s q ksize hk
      obtain ⟨bk, bkf⟩ := vecKeySerialize_sizeEq cp k _ _ _ _ hnok hk
      have hs4 := (bkf s q rfl).2
      split at h
      · cases h
      · rename_i w3 vsize hv
        split at h
        · cases h
        · rename_i w4 he
          split at h
          · cases h
          · rename_i w5 t2 hr
            simp only [Except.ok.injEq, Prod.mk.injEq] at h
            obtain ⟨h1, h2⟩ := h; subst h1; subst h2
            have bv := vecEslSerialize_sizeEq cp true v _ _ _ hnov hv
            have bg := endIsolate_ok_length he (by omega)
            have br := vecMapEntries_sizeEq cp rest _ _ _ hnor hr
            omega
    · rename_i w1 ksize hk
      obtain ⟨bk, _⟩ := vecKeySerialize_sizeEq cp k _ _ _ _ hnok hk
      split at h
      · cases h
      · rename_i w3 vsize hv
        split at h
        · cases h
        · rename_i w4 he
          split at h
          · cases h
          · rename_i w5 t2 hr
            simp only [Except.ok.injEq, Prod.mk.injEq] at h
            obtain ⟨h1, h2⟩ := h; subst h1; subst h2
            have bv := vecEslSerialize_sizeEq cp true v _ _ _ hnov hv
            simp [leBytes_length] at bv
            have bg := endIsolate_ok_length he (by omega)
            have br := vecMapEntries_sizeEq cp rest _ _ _ hnor hr
            omega

theorem vecKeySerialize_sizeEq (cp : CodePage) (v : Value) (w w2 : W)
    (kb : Option (Nat × Nat)) (n : Nat) (hno : noTSVariants v = true)
    (h : vecKeySerialize cp v w = .ok (w2, kb, n)) :
    w2.length = w.length + n ∧
      (∀ s p, kb = some (s, p) → p = w2.length ∧ s + 4 ≤ w2.length) := by
  match v with
  | .vBool b =>
    simp only [vecKeySerialize, Except.ok.injEq, Prod.mk.injEq] at h
    obtain ⟨h1, h2, h3⟩ := h; subst h1; subst h2; subst h3
    exact ⟨by simp, by simp⟩
  | .vU8 m =>
    simp only [vecKeySerialize, Except.ok.injEq, Prod.mk.injEq] at h
    obtain ⟨h1, h2, h3⟩ := h; subst h1; subst h2; subst h3
    exact ⟨by simp [leBytes_length], by simp⟩
  | .vU16 m =>
    simp only [vecKeySerialize, Except.ok.injEq, Prod.mk.injEq] at h
    obtain ⟨h1, h2, h3⟩ := h; subst h1; subst h2; subst h3
    exact ⟨by simp [leBytes_length], by simp⟩
  | .vU32 m =>
    simp only [vecKeySerialize, Except.ok.injEq, Prod.mk.injEq] at h
    obtain ⟨h1, h2, h3⟩ := h; subst h1; subst h2; subst h3
    exact ⟨by simp [leBytes_length], by simp⟩
  | .vU64 m =>
    simp only [vecKeySerialize, Except.ok.injEq, Prod.mk.injEq] at h
    obtain ⟨h1, h2, h3⟩ := h; subst h1; subst h2; subst h3
    exact ⟨by simp [leBytes_length], by simp⟩
  | .vU128 m =>
    simp only [vecKeySerialize, Except.ok.injEq, Prod.mk.injEq] at h
    obtain ⟨h1, h2, h3⟩ := h; subst h1; subst h2; subst h3
    exact ⟨by simp [leBytes_length], by simp⟩
  | .vI8 i =>
    simp only [vecKeySerialize, Except.ok.injEq, Prod.mk.injEq] at h
    obtain ⟨h1, h2, h3⟩ := h; subst h1; subst h2; subst h3
    exact ⟨by simp [intLeBytes, leBytes_length], by simp⟩
  | .vI16 i =>
    simp only [vecKeySerialize, Except.ok.injEq, Prod.mk.injEq] at h
    obtain ⟨h1, h2, h3⟩ := h; subst h1; subst h2; subst h3
    exact ⟨by simp [intLeBytes, leBytes_length], by simp⟩
  | .vI32 i =>
    simp only [vecKeySerialize, Except.ok.injEq, Prod.mk.injEq] at h
    obtain ⟨h1, h2, h3⟩ := h; subst h1; subst h2; subst h3
    exact ⟨by simp [intLeBytes, leBytes_length], by simp⟩
  | .vI64 i =>
    simp only [vecKeySerialize, Except.ok.injEq, Prod.mk.injEq] at h
    obtain ⟨h1, h2, h3⟩ := h; subst h1; subst h2; subst h3
    exact ⟨by simp [intLeBytes, leBytes_length], by simp⟩
  | .vI128 i =>
    simp only [vecKeySerialize, Except.ok.injEq, Prod.mk.injEq] at h
    obtain ⟨h1, h2, h3⟩ := h; subst h1; subst h2; subst h3
    exact ⟨by simp [intLeBytes, leBytes_length], by simp⟩
  | .vChar c =>
    simp only [vecKeySerialize] at h
    split at h
    · cases h
    · simp only [Except.ok.injEq, Prod.mk.injEq] at h
      obtain ⟨h1, h2, h3⟩ := h; subst h1; subst h2; subst h3
      exact ⟨by simp, by simp⟩
  | .vStr s =>
    simp only [vecKeySerialize] at h
    split at h
    · cases h
    · split at h
      · cases h
      · simp only [Except.ok.injEq, Prod.mk.injEq] at h
        obtain ⟨h1, h2, h3⟩ := h; subst h1; subst h2; subst h3
        refine ⟨?_, by simp⟩
        simp [leBytes_length]
  | .vBytes bs =>
    simp only [vecKeySerialize] at h
    split at h
    · cases h
    · simp only [Except.ok.injEq, Prod.mk.injEq] at h
      obtain ⟨h1, h2, h3⟩ := h; subst h1; subst h2; subst h3
      refine ⟨?_, by simp⟩
      simp [leBytes_length]
  | .vUnit =>
    simp only [vecKeySerialize, Except.ok.injEq, Prod.mk.injEq] at h
    obtain ⟨h1, h2, h3⟩ := h; subst h1; subst h2; subst h3
    exact ⟨by simp, by simp⟩
  | .vUnitStruct =>
    simp only [vecKeySerialize, Except.ok.injEq, Prod.mk.injEq] at h
    obtain ⟨h1, h2, h3⟩ := h; subst h1; subst h2; subst h3
    exact ⟨by simp, by simp⟩
  | .vNewtypeStruct v1 =>
    simp only [noTSVariants] at hno
    simp only [vecKeySerialize] at h
    split at h
    · cases h
    · rename_i w1 n1 hv
      simp only [Except.ok.injEq, Prod.mk.injEq] at h
      obtain ⟨h1, h2, h3⟩ := h; subst h1; subst h2; subst h3
      exact ⟨vecEslSerialize_sizeEq cp false v1 _ _ _ hno hv, by simp⟩
  | .vNone =>
    simp only [vecKeySerialize, Except.ok.injEq, Prod.mk.injEq] at h
    obtain ⟨h1, h2, h3⟩ := h; subst h1; subst h2; subst h3
    exact ⟨by simp [leBytes_length], by simp⟩
  | .vSome v1 =>
    simp only [noTSVariants] at hno
    simp only [vecKeySerialize] at h
    split at h
    · cases h
    · rename_i w1 n1 hv
      split at h
      · cases h
      · split at h
        · cases h
        · rename_i w3 he
          simp only [Except.ok.injEq, Prod.mk.injEq] at h
          obtain ⟨h1, h2, h3⟩ := h; subst h1; subst h2; subst h3
          have hb := vecEslSerialize_sizeEq cp true v1 _ _ _ hno hv
          simp [leBytes_length] at hb
          have hg := endIsolate_ok_length he (by omega)
          exact ⟨by omega, by simp⟩
  | .vUnitVariant idx =>
    simp only [vecKeySerialize] at h
    split at h
    · cases h
    · simp only [Except.ok.injEq, Prod.mk.injEq] at h
      obtain ⟨h1, h2, h3⟩ := h; subst h1; subst h2; subst h3
      exact ⟨by simp [leBytes_length], by simp⟩
  | .vNewtypeVariant idx v1 =>
    simp only [noTSVariants] at hno
    simp only [vecKeySerialize] at h
    split at h
    · cases h
    · rename_i w1 n1 hv
      split at h
      · cases h
      · split at h
        · cases h
        · simp only [Except.ok.injEq, Prod.mk.injEq] at h
          obtain ⟨h1, h2, h3⟩ := h; subst h1; subst h2; subst h3
          have hb := vecEslSerialize_sizeEq cp true v1 _ _ _ hno hv
          simp [leBytes_length] at hb
          exact ⟨by omega, by simp⟩
  | .vTupleVariant idx fs => simp [noTSVariants] at hno
  | .vStructVariant idx fs => simp [noTSVariants] at hno
  | .vTuple fs =>
    simp only [noTSVariants] at hno
    simp only [vecKeySerialize] at h
    split at h
    · cases h
    · rename_i w1 vb n1 hv
      simp only [Except.ok.injEq, Prod.mk.injEq] at h
      obtain ⟨h1, h2, h3⟩ := h; subst h1; subst h2; subst h3
      obtain ⟨heq, hfact⟩ :=
        vecKeyTupleElements_sizeEq cp fs _ _ _ _ _ hno hv
      refine ⟨heq, fun s p hsp => ?_⟩
      match vb with
      | none => cases hsp
      | some s0 =>
        simp only [Option.map, Option.some.injEq, Prod.mk.injEq] at hsp
        obtain ⟨hs1, hs2⟩ := hsp
        rcases hfact s0 rfl with h4 | h4
        · exact ⟨hs2.symm, hs1 ▸ h4⟩
        · cases h4
  | .vStruct fs =>
    simp only [noTSVariants] at hno
    simp only [vecKeySerialize] at h
    split at h
    · cases h
    · rename_i w1 n1 hv
      simp only [Except.ok.injEq, Prod.mk.injEq] at h
      obtain ⟨h1, h2, h3⟩ := h; subst h1; subst h2; subst h3
      exact ⟨vecKeySerializeFields_sizeEq cp fs _ _ _ hno hv, by simp⟩
  | .vSeq es =>
    simp only [noTSVariants] at hno
    simp only [vecKeySerialize] at h
    split at h
    · cases h
    · rename_i w1 tot lz hv
      split at h
      · cases h
      · split at h
        · cases h
        · rename_i w3 he
          simp only [Except.ok.injEq, Prod.mk.injEq] at h
          obtain ⟨h1, h2, h3⟩ := h; subst h1; subst h2; subst h3
          have hb := vecSeqElements_sizeEq cp es _ _ _ _ hno hv
          simp [leBytes_length] at hb
          have hg := endIsolate_ok_length he (by omega)
          exact ⟨by omega, by simp⟩
  | .vMap ps =>
    simp only [noTSVariants] at hno
    simp only [vecKeySerialize] at h
    split at h
    · cases h
    · rename_i w1 tot hv
      simp only [Except.ok.injEq, Prod.mk.injEq] at h
      obtain ⟨h1, h2, h3⟩ := h; subst h1; subst h2; subst h3
      exact ⟨vecMapEntries_sizeEq cp ps _ _ _ hno hv, by simp⟩

theorem vecKeySerializeFields_sizeEq (cp : CodePage) (fs : List Value)
    (w w2 : W) (n : Nat) (hno : noTSVariantsList fs = true)
    (h : vecKeySerializeFields cp fs w = .ok (w2, n)) :
    w2.length = w.length + n := by
  match fs with
  | [] =>
    simp only [vecKeySerializeFields, Except.ok.injEq, Prod.mk.injEq] at h
    obtain ⟨h1, h2⟩ := h; subst h1; subst h2; simp
  | f :: rest =>
    simp only [noTSVariantsList, Bool.and_eq_true] at hno
    obtain ⟨hno1, hno2⟩ := hno
    simp only [vecKeySerializeFields] at h
    split at h
    · cases h
    · rename_i w1 n1 hv
      split at h
      · cases h
      · rename_i w3 n2 hr
        simp only [Except.ok.injEq, Prod.mk.injEq] at h
        obtain ⟨h1, h2⟩ := h; subst h1; subst h2
        have b1 := vecEslSerialize_sizeEq cp false f _ _ _ hno1 hv
        have b2 := vecKeySerializeFields_sizeEq cp rest _ _ _ hno2 hr
        omega

theorem vecKeyTupleElements_sizeEq (cp : CodePage) (fs : List Value)
    (w w2 : W) (vb vb2 : Option Nat) (n : Nat)
    (hno : noTSVariantsList fs = true)
    (h : vecKeyTupleElements cp fs w vb = .ok (w2, vb2, n)) :
    w2.length = w.length + n ∧
      (∀ s, vb2 = some s → s + 4 ≤ w2.length ∨ vb = some s) := by
  match fs with
  | [] =>
    simp only [vecKeyTupleElements, Except.ok.injEq, Prod.mk.injEq] at h
    obtain ⟨h1, h2, h3⟩ := h; subst h1; subst h2; subst h3
    exact ⟨by simp, fun s hs => Or.inr hs⟩
  | f :: rest =>
    simp only [noTSVariantsList, Bool.and_eq_true] at hno
    obtain ⟨hno1, hno2⟩ := hno
    match vb with
    | some s0 =>
      simp only [vecKeyTupleElements] at h
      split at h
      · cases h
      · rename_i w1 n1 hv
        split at h
        · cases h
        · rename_i w3 vb3 n2 hr
          simp only [Except.ok.injEq, Prod.mk.injEq] at h
          obtain ⟨h1, h2, h3⟩ := h; subst h1; subst h2; subst h3
          have b1 := vecEslSerialize_sizeEq cp false f _ _ _ hno1 hv
          obtain ⟨b2, hfact⟩ :=
            vecKeyTupleElements_sizeEq cp rest _ _ _ _ _ hno2 hr
          exact ⟨by omega, hfact⟩
    | none =>
      simp only [vecKeyTupleElements] at h
      split at h
      · cases h
      · rename_i w1 n1 hv
        split at h
        · cases h
        · rename_i w3 vb3 n2 hr
          simp only [Except.ok.injEq, Prod.mk.injEq] at h
          obtain ⟨h1, h2, h3⟩ := h; subst h1; subst h2; subst h3
          have b1 := vecEslSerialize_sizeEq cp false f _ _ _ hno1 hv
          obtain ⟨b2, hfact⟩ :=
            vecKeyTupleElements_sizeEq cp rest _ _ _ _ _ hno2 hr
          simp [leBytes_length] at b2
          refine ⟨by omega, fun s hs => ?_⟩
          rcases hfact s hs with h4 | h4
          · exact Or.inl h4
          · simp only [Option.some.injEq] at h4
            subst h4
            exact Or.inl (by omega)

end

/-! ### Preparation for the legacy/streaming equivalence -/

theorem vecEslSerialize_delta (cp : CodePage) (iso : Bool) (v : Value)
    (u : W) : vecEslSerialize cp iso v u =
      shiftSer u (vecEslSerialize cp iso v []) := by
  have h := vecEslSerialize_shift cp iso v u []
  rwa [List.append_nil] at h

theorem vecSeqElements_delta (cp : CodePage) (es : List Value) (u : W) :
    vecSeqElements cp es u = shiftSeq u (vecSeqElements cp es []) := by
  have h := vecSeqElements_shift cp es u []
  rwa [List.append_nil] at h

theorem vecSerializeFields_delta (cp : CodePage) (cnt : Option Nat)
    (fs : List Value) (u : W) : vecSerializeFields cp cnt fs u =
      shiftSer u (vecSerializeFields cp cnt fs []) := by
  have h := vecSerializeFields_shift cp cnt fs u []
  rwa [List.append_nil] at h

theorem vecKeySerializeFields_delta (cp : CodePage) (fs : List Value)
    (u : W) : vecKeySerializeFields cp fs u =
      shiftSer u (vecKeySerializeFields cp fs []) := by
  have h := vecKeySerializeFields_shift cp fs u []
  rwa [List.append_nil] at h

theorem vecMapEntries_delta (cp : CodePage) (ps : List (Value × Value))
    (u : W) : vecMapEntries cp ps u =
      shiftSer u (vecMapEntries cp ps []) := by
  have h := vecMapEntries_shift cp ps u []
  rwa [List.append_nil] at h

theorem endIsolate_stub0 (s : W) :
    endIsolate (leBytes 4 SIZE_STUB ++ s) 0 4 =
      if s.length ≤ u32Max then .ok (leBytes 4 s.length ++ s)
      else .error (.largeObject s.length) := by
  have h := endIsolate_stub [] s
  simpa using h

theorem writeU32At_append_left (d vd : W) (s v : Nat)
    (h : s + 4 ≤ d.length) :
    writeU32At (d ++ vd) s v = writeU32At d s v ++ vd := by
  unfold writeU32At
  rw [List.take_append_of_le_length (by omega),
    List.drop_append_of_le_length h]
  simp

theorem endIsolate_payload (d vd : W) (s : Nat) (hs : s + 4 ≤ d.length) :
    endIsolate (d ++ vd) s d.length =
      if vd.length ≤ u32Max then .ok (writeU32At d s vd.length ++ vd)
      else .error (.largeObject vd.length) := by
  unfold endIsolate size
  rw [List.length_append, Nat.add_sub_cancel_left]
  by_cases h : vd.length > u32Max
  · have h2 : ¬ vd.length ≤ u32Max := by omega
    simp [h, h2]
  · have h2 : vd.length ≤ u32Max := by omega
    simp only [if_neg h, if_pos h2]
    rw [writeU32At_append_left d vd s _ hs]

theorem vecKeyTupleElements_someForm (cp : CodePage) (fs : List Value)
    (w : W) (s0 : Nat) :
    vecKeyTupleElements cp fs w (some s0) =
      match vecKeySerializeFields cp fs w with
      | .error e => .error e
      | .ok (w2, n) => .ok (w2, some s0, n) := by
  induction fs generalizing w with
  | nil => simp [vecKeyTupleElements, vecKeySerializeFields]
  | cons f rest ih =>
    simp only [vecKeyTupleElements, vecKeySerializeFields]
    cases hv : vecEslSerialize cp false f w with
    | error e => simp
    | ok p =>
      obtain ⟨w1, n1⟩ := p
      simp only [ih]
      cases hr : vecKeySerializeFields cp rest w1 with
      | error e => simp
      | ok q => obtain ⟨w2, n2⟩ := q; simp

theorem eslSerializeBytes_eq (iso : Bool) (bs : List Nat) :
    eslSerializeBytes iso bs = vecSerializeBytes iso bs [] := by
  unfold eslSerializeBytes vecSerializeBytes
  cases iso with
  | true => simp
  | false =>
    cases h : size bs.length with
    | error e => simp
    | ok vs => simp

/-! ### Equivalence of the legacy and the streaming encoder

On tuple/struct-variant-free values the legacy `EslSerializer` writing into
a `Vec<u8>` produces exactly the same bytes, the same returned size and the
same errors as the streaming `VecEslSerializer`. -/

mutual

theorem eslSerialize_eq (cp : CodePage) (iso : Bool) (v : Value)
    (hno : noTSVariants v = true) :
    eslSerialize cp iso v = vecEslSerialize cp iso v [] := by
  match v with
  | .vBool b => simp [eslSerialize, vecEslSerialize]
  | .vU8 m => simp [eslSerialize, vecEslSerialize]
  | .vU16 m => simp [eslSerialize, vecEslSerialize]
  | .vU32 m => simp [eslSerialize, vecEslSerialize]
  | .vU64 m => simp [eslSerialize, vecEslSerialize]
  | .vU128 m => simp [eslSerialize, vecEslSerialize]
  | .vI8 i => simp [eslSerialize, vecEslSerialize]
  | .vI16 i => simp [eslSerialize, vecEslSerialize]
  | .vI32 i => simp [eslSerialize, vecEslSerialize]
  | .vI64 i => simp [eslSerialize, vecEslSerialize]
  | .vI128 i => simp [eslSerialize, vecEslSerialize]
  | .vChar c =>
    simp only [eslSerialize, vecEslSerialize]
    cases h : charByte cp c with
    | error e => simp
    | ok b => simp
  | .vStr s =>
    simp only [eslSerialize, vecEslSerialize]
    cases h : strBytes cp s with
    | error e => simp
    | ok bs => simp [eslSerializeBytes_eq]
  | .vBytes bs =>
    simp only [eslSerialize, vecEslSerialize]
    exact eslSerializeBytes_eq iso bs
  | .vUnit => simp [eslSerialize, vecEslSerialize]
  | .vUnitStruct => simp [eslSerialize, vecEslSerialize]
  | .vNewtypeStruct v1 =>
    simp only [noTSVariants] at hno
    simp only [eslSerialize, vecEslSerialize]
    exact eslSerialize_eq cp iso v1 hno
  | .vNone =>
    cases iso <;> simp [eslSerialize, vecEslSerialize]
  | .vSome v1 =>
    simp only [noTSVariants] at hno
    simp only [eslSerialize, vecEslSerialize]
    cases iso with
    | true =>
      cases hv : vecEslSerialize cp true v1 [] with
      | error e => simp
      | ok p =>
        obtain ⟨d, n⟩ := p
        have he := vecEslSerialize_sizeEq cp true v1 [] d n hno hv
        simp at he
        by_cases hn : n = 0
        · simp [hn]
        · simp only [hn, if_neg, ite_false, ite_true]
          simp [eslSerializeBytes, he, hn]
    | false =>
      simp only [List.nil_append]
      rw [vecEslSerialize_delta cp true v1 (leBytes 4 SIZE_STUB)]
      cases hv : vecEslSerialize cp true v1 [] with
      | error e => simp [shiftSer]
      | ok p =>
        obtain ⟨d, n⟩ := p
        have he := vecEslSerialize_sizeEq cp true v1 [] d n hno hv
        simp at he
        by_cases hn : n = 0
        · simp [shiftSer, hn]
        · simp only [shiftSer, hn, if_neg, ite_false, Bool.false_eq_true,
            List.length_nil, Nat.zero_add]
          rw [endIsolate_stub0 d]
          subst he
          by_cases hmax : d.length ≤ u32Max
          · have hbig : ¬ (u32Max < d.length) := by omega
            simp [eslSerializeBytes, size, hmax, hbig]
          · have hbig : u32Max < d.length := by omega
            simp [eslSerializeBytes, size, hmax, hbig]
  | .vUnitVariant idx =>
    by_cases hidx : idx ≠ 0 <;> cases iso <;>
      simp [eslSerialize, vecEslSerialize, hidx]
  | .vNewtypeVariant idx v1 =>
    simp only [noTSVariants] at hno
    simp only [eslSerialize, vecEslSerialize]
    rw [eslSerialize_eq cp true v1 hno]
    cases iso with
    | true =>
      simp only [ite_true]
      cases hv : vecEslSerialize cp true v1 [] with
      | error e => simp
      | ok p =>
        obtain ⟨d, n⟩ := p
        cases hsz : size n with
        | error e => simp [hsz]
        | ok vs =>
          by_cases hvs : idx ≠ vs <;> simp [hsz, hvs]
    | false =>
      simp only [Bool.false_eq_true, ite_false, List.nil_append]
      rw [vecEslSerialize_delta cp true v1 (leBytes 4 idx)]
      cases hv : vecEslSerialize cp true v1 [] with
      | error e => simp [shiftSer]
      | ok p =>
        obtain ⟨d, n⟩ := p
        cases hsz : size n with
        | error e => simp [shiftSer, hsz]
        | ok vs =>
          by_cases hvs : idx ≠ vs <;> simp [shiftSer, hsz, hvs]
  | .vTupleVariant idx fs => simp [noTSVariants] at hno
  | .vStructVariant idx fs => simp [noTSVariants] at hno
  | .vTuple fs =>
    simp only [noTSVariants] at hno
    simp only [eslSerialize, vecEslSerialize]
    exact eslSerializeFields_eq cp _ fs hno
  | .vStruct fs =>
    simp only [noTSVariants] at hno
    simp only [eslSerialize, vecEslSerialize]
    exact eslSerializeFields_eq cp _ fs hno
  | .vSeq es =>
    simp only [noTSVariants] at hno
    simp only [eslSerialize, vecEslSerialize]
    cases iso with
    | true =>
      simp only [ite_true]
      rw [eslSeqElementsDirect_eq cp es hno]
      cases hv : vecSeqElements cp es [] with
      | error e => simp
      | ok p =>
        obtain ⟨d, tot, lz⟩ := p
        cases lz <;> simp
    | false =>
      simp only [Bool.false_eq_true, ite_false, List.nil_append]
      rw [vecSeqElements_delta cp es (leBytes 4 SIZE_STUB)]
      cases hv : vecSeqElements cp es [] with
      | error e => simp [shiftSeq]
      | ok p =>
        obtain ⟨buf, tot, lz⟩ := p
        have he := vecSeqElements_sizeEq cp es [] buf tot lz hno hv
        simp at he
        cases lz with
        | true => simp [shiftSeq]
        | false =>
          simp only [shiftSeq, Bool.false_eq_true, if_neg, ite_false,
            List.length_nil, Nat.zero_add]
          rw [endIsolate_stub0 buf]
          subst he
          by_cases hmax : buf.length ≤ u32Max
          · have hbig : ¬ (u32Max < buf.length) := by omega
            simp [size, hmax, hbig]
          · have hbig : u32Max < buf.length := by omega
            simp [size, hmax, hbig]
  | .vMap ps =>
    simp only [noTSVariants] at hno
    simp only [eslSerialize, vecEslSerialize]
    exact eslMapEntries_eq cp ps hno

theorem eslSerializeFields_eq (cp : CodePage) (cnt : Option Nat)
    (fs : List Value) (hno : noTSVariantsList fs = true) :
    eslSerializeFields cp cnt fs = vecSerializeFields cp cnt fs [] := by
  match fs with
  | [] => simp [eslSerializeFields, vecSerializeFields]
  | f :: rest =>
    simp only [noTSVariantsList, Bool.and_eq_true] at hno
    obtain ⟨hno1, hno2⟩ := hno
    match cnt with
    | some 0 => simp [eslSerializeFields, vecSerializeFields]
    | some (k + 1) =>
      simp only [eslSerializeFields, vecSerializeFields]
      rw [eslSerialize_eq cp (k == 0) f hno1]
      cases hv : vecEslSerialize cp (k == 0) f [] with
      | error e => simp
      | ok p =>
        obtain ⟨d1, n1⟩ := p
        simp only [List.nil_append]
        rw [eslSerializeFields_eq cp (some k) rest hno2,
          vecSerializeFields_delta cp (some k) rest d1]
        cases hr : vecSerializeFields cp (some k) rest [] with
        | error e => simp [shiftSer]
        | ok q => obtain ⟨d2, n2⟩ := q; simp [shiftSer]
    | none =>
      simp only [eslSerializeFields, vecSerializeFields]
      rw [eslSerialize_eq cp false f hno1]
      cases hv : vecEslSerialize cp false f [] with
      | error e => simp
      | ok p =>
        obtain ⟨d1, n1⟩ := p
        simp only [List.nil_append]
        rw [eslSerializeFields_eq cp none rest hno2,
          vecSerializeFields_delta cp none rest d1]
        cases hr : vecSerializeFields cp none rest [] with
        | error e => simp [shiftSer]
        | ok q => obtain ⟨d2, n2⟩ := q; simp [shiftSer]

theorem eslSeqElementsDirect_eq (cp : CodePage) (es : List Value)
    (hno : noTSVariantsList es = true) :
    eslSeqElementsDirect cp es = vecSeqElements cp es [] := by
  match es with
  | [] => simp [eslSeqElementsDirect, vecSeqElements]
  | e :: rest =>
    simp only [noTSVariantsList, Bool.and_eq_true] at hno
    obtain ⟨hno1, hno2⟩ := hno
    simp only [eslSeqElementsDirect, vecSeqElements]
    rw [eslSerialize_eq cp false e hno1]
    cases hv : vecEslSerialize cp false e [] with
    | error e1 => simp
    | ok p =>
      obtain ⟨d, n⟩ := p
      match rest with
      | [] => simp
      | r :: rs =>
        simp only [List.nil_append]
        rw [eslSeqElementsDirect_eq cp (r :: rs) hno2,
          vecSeqElements_delta cp (r :: rs) d]
        cases hr : vecSeqElements cp (r :: rs) [] with
        | error e1 => simp [shiftSeq]
        | ok q => obtain ⟨d2, t2, lz2⟩ := q; simp [shiftSeq]

theorem eslMapEntries_eq (cp : CodePage) (ps : List (Value × Value))
    (hno : noTSVariantsPairs ps = true) :
    eslMapEntries cp ps = vecMapEntries cp ps [] := by
  match ps with
  | [] => simp [eslMapEntries, vecMapEntries]
  | (k, v) :: rest =>
    simp only [noTSVariantsPairs, Bool.and_eq_true] at hno
    obtain ⟨hnok, hnov, hnor⟩ := hno
    have hKS := keySerialize_eq cp k hnok
    simp only [eslMapEntries, vecMapEntries]
    cases hk : vecKeySerialize cp k [] with
    | error e =>
      simp only [hk] at hKS
      simp [hKS, hk]
    | ok p =>
      obtain ⟨d, kb, ksize⟩ := p
      match kb with
      | none =>
        simp only [hk] at hKS
        simp only [hKS, hk]
        cases hv : vecEslSerialize cp true v [] with
        | error e =>
          rw [vecEslSerialize_delta cp true v (d ++ leBytes 4 SIZE_STUB),
            hv]
          simp [shiftSer]
        | ok p2 =>
          obtain ⟨vd, vn⟩ := p2
          have hveq := vecEslSerialize_sizeEq cp true v [] vd vn hnov hv
          simp at hveq
          subst hveq
          rw [vecEslSerialize_delta cp true v (d ++ leBytes 4 SIZE_STUB),
            hv]
          simp only [shiftSer]
          rw [endIsolate_stub d vd]
          by_cases hmax : vd.length ≤ u32Max
          · simp only [hmax, if_pos, ite_true]
            rw [eslMapEntries_eq cp rest hnor,
              vecMapEntries_delta cp rest (d ++ leBytes 4 vd.length ++ vd)]
            cases hr : vecMapEntries cp rest [] with
            | error e => simp [shiftSer, size, show ¬ vd.length > u32Max by
                omega]
            | ok q =>
              obtain ⟨rd, rtot⟩ := q
              simp [shiftSer, size, show ¬ vd.length > u32Max by omega]
              omega
          · simp [shiftSer, size, show vd.length > u32Max by omega, hmax]
      | some (s, q) =>
        simp only [hk] at hKS
        obtain ⟨hp, hs4, hn4, hleg⟩ := hKS
        simp only [hleg, hk]
        cases hv : vecEslSerialize cp true v [] with
        | error e =>
          rw [vecEslSerialize_delta cp true v d, hv]
          simp [shiftSer]
        | ok p2 =>
          obtain ⟨vd, vn⟩ := p2
          have hveq := vecEslSerialize_sizeEq cp true v [] vd vn hnov hv
          simp at hveq
          subst hveq
          rw [vecEslSerialize_delta cp true v d, hv]
          simp only [shiftSer]
          rw [hp, endIsolate_payload d vd s hs4]
          by_cases hmax : vd.length ≤ u32Max
          · simp only [hmax, if_pos, ite_true]
            rw [eslMapEntries_eq cp rest hnor,
              vecMapEntries_delta cp rest (writeU32At d s vd.length ++ vd)]
            cases hr : vecMapEntries cp rest [] with
            | error e => simp [shiftSer, size, show ¬ vd.length > u32Max by
                omega]
            | ok q2 =>
              obtain ⟨rd, rtot⟩ := q2
              simp only [shiftSer, size,
                show ¬ vd.length > u32Max from by omega, if_neg, ite_false]
              simp only [Except.ok.injEq, Prod.mk.injEq]
              constructor
              · simp [writeU32At, List.append_assoc]
              · omega
          · simp [shiftSer, size, show vd.length > u32Max by omega, hmax]

theorem keySerialize_eq (cp : CodePage) (v : Value)
    (hno : noTSVariants v = true) :
    match vecKeySerialize cp v [] with
    | .error e => keySerialize cp v = .error e
    | .ok (d, none, n) => keySerialize cp v = .ok (d, none, n)
    | .ok (d, some (s, p), n) =>
      p = d.length ∧ s + 4 ≤ d.length ∧ 4 ≤ n ∧
        keySerialize cp v = .ok (d.take s, some (d.drop (s + 4)), n - 4) := by
  match v with
  | .vBool b => simp [keySerialize, vecKeySerialize]
  | .vU8 m => simp [keySerialize, vecKeySerialize]
  | .vU16 m => simp [keySerialize, vecKeySerialize]
  | .vU32 m => simp [keySerialize, vecKeySerialize]
  | .vU64 m => simp [keySerialize, vecKeySerialize]
  | .vU128 m => simp [keySerialize, vecKeySerialize]
  | .vI8 i => simp [keySerialize, vecKeySerialize]
  | .vI16 i => simp [keySerialize, vecKeySerialize]
  | .vI32 i => simp [keySerialize, vecKeySerialize]
  | .vI64 i => simp [keySerialize, vecKeySerialize]
  | .vI128 i => simp [keySerialize, vecKeySerialize]
  | .vChar c =>
    simp only [keySerialize, vecKeySerialize]
    cases h : charByte cp c with
    | error e => simp
    | ok b => simp
  | .vStr s =>
    simp only [keySerialize, vecKeySerialize]
    cases h : strBytes cp s with
    | error e => simp
    | ok bs =>
      cases h2 : size bs.length with
      | error e => simp [h2]
      | ok vs => simp [h2]
  | .vBytes bs =>
    simp only [keySerialize, vecKeySerialize]
    cases h2 : size bs.length with
    | error e => simp [h2]
    | ok vs => simp [h2]
  | .vUnit => simp [keySerialize, vecKeySerialize]
  | .vUnitStruct => simp [keySerialize, vecKeySerialize]
  | .vNewtypeStruct v1 =>
    simp only [noTSVariants] at hno
    simp only [keySerialize, vecKeySerialize]
    rw [eslSerialize_eq cp false v1 hno]
    cases hv : vecEslSerialize cp false v1 [] with
    | error e => simp
    | ok p => obtain ⟨d, n⟩ := p; simp
  | .vNone => simp [keySerialize, vecKeySerialize]
  | .vSome v1 =>
    simp only [noTSVariants] at hno
    simp only [keySerialize, vecKeySerialize, List.nil_append]
    rw [vecEslSerialize_delta cp true v1 (leBytes 4 SIZE_STUB)]
    cases hv : vecEslSerialize cp true v1 [] with
    | error e => simp [shiftSer]
    | ok p =>
      obtain ⟨d, n⟩ := p
      have he := vecEslSerialize_sizeEq cp true v1 [] d n hno hv
      simp at he
      by_cases hn : n = 0
      · simp [shiftSer, hn]
      · simp only [shiftSer, hn, if_neg, ite_false, List.length_nil,
          Nat.zero_add]
        rw [endIsolate_stub0 d]
        subst he
        by_cases hmax : d.length ≤ u32Max
        · have hbig : ¬ (u32Max < d.length) := by omega
          simp [size, hmax, hbig]
        · have hbig : u32Max < d.length := by omega
          simp [size, hmax, hbig]
  | .vUnitVariant idx =>
    by_cases hidx : idx ≠ 0 <;> simp [keySerialize, vecKeySerialize, hidx]
  | .vNewtypeVariant idx v1 =>
    simp only [noTSVariants] at hno
    simp only [keySerialize, vecKeySerialize, List.nil_append]
    rw [eslSerialize_eq cp true v1 hno,
      vecEslSerialize_delta cp true v1 (leBytes 4 idx)]
    cases hv : vecEslSerialize cp true v1 [] with
    | error e => simp [shiftSer]
    | ok p =>
      obtain ⟨d, n⟩ := p
      cases hsz : size n with
      | error e => simp [shiftSer, hsz]
      | ok vs =>
        by_cases hvs : idx ≠ vs <;> simp [shiftSer, hsz, hvs]
  | .vTupleVariant idx fs => simp [noTSVariants] at hno
  | .vStructVariant idx fs => simp [noTSVariants] at hno
  | .vTuple fs =>
    simp only [noTSVariants] at hno
    match fs with
    | [] => simp [keySerialize, vecKeySerialize, vecKeyTupleElements]
    | f :: rest =>
      simp only [noTSVariantsList, Bool.and_eq_true] at hno
      obtain ⟨hno1, hno2⟩ := hno
      simp only [keySerialize, vecKeySerialize, vecKeyTupleElements]
      rw [eslSerialize_eq cp false f hno1]
      cases hv : vecEslSerialize cp false f [] with
      | error e => simp
      | ok p =>
        obtain ⟨d1, n1⟩ := p
        simp only [List.nil_append]
        rw [vecKeyTupleElements_someForm cp rest
          (d1 ++ leBytes 4 SIZE_STUB) d1.length,
          vecKeySerializeFields_delta cp rest (d1 ++ leBytes 4 SIZE_STUB)]
        cases hr : vecKeySerializeFields cp rest [] with
        | error e => simp [shiftSer]
        | ok q =>
          obtain ⟨tb, tot⟩ := q
          simp only [shiftSer, Option.map]
          have hst : (leBytes 4 SIZE_STUB).length = 4 := leBytes_length 4 _
          refine ⟨by simp, by simp [hst], by omega, ?_⟩
          have ht : (d1 ++ leBytes 4 SIZE_STUB ++ tb).take d1.length
              = d1 := by
            rw [List.append_assoc, List.take_left]
          have hd : (d1 ++ leBytes 4 SIZE_STUB ++ tb).drop (d1.length + 4)
              = tb := by
            rw [List.append_assoc, List.drop_append]
            have h3 := List.drop_left (leBytes 4 SIZE_STUB) tb
            rwa [hst] at h3
          have hsub : n1 + 4 + tot - 4 = n1 + tot := by omega
          rw [ht, hd, hsub]
  | .vStruct fs =>
    simp only [noTSVariants] at hno
    simp only [keySerialize, vecKeySerialize]
    rw [keySerializeFields_eq cp fs hno]
    cases hr : vecKeySerializeFields cp fs [] with
    | error e => simp
    | ok q => obtain ⟨d, n⟩ := q; simp
  | .vSeq es =>
    simp only [noTSVariants] at hno
    simp only [keySerialize, vecKeySerialize, List.nil_append]
    rw [vecSeqElements_delta cp es (leBytes 4 SIZE_STUB)]
    cases hv : vecSeqElements cp es [] with
    | error e => simp [shiftSeq]
    | ok p =>
      obtain ⟨buf, tot, lz⟩ := p
      have he := vecSeqElements_sizeEq cp es [] buf tot lz hno hv
      simp at he
      cases lz with
      | true => simp [shiftSeq]
      | false =>
        simp only [shiftSeq, Bool.false_eq_true, if_neg, ite_false,
          List.length_nil, Nat.zero_add]
        rw [endIsolate_stub0 buf]
        subst he
        by_cases hmax : buf.length ≤ u32Max
        · have hbig : ¬ (u32Max < buf.length) := by omega
          simp [size, hmax, hbig]
        · have hbig : u32Max < buf.length := by omega
          simp [size, hmax, hbig]
  | .vMap ps =>
    simp only [noTSVariants] at hno
    simp only [keySerialize, vecKeySerialize]
    rw [eslMapEntries_eq cp ps hno]
    cases hr : vecMapEntries cp ps [] with
    | error e => simp
    | ok q => obtain ⟨d, n⟩ := q; simp

theorem keySerializeFields_eq (cp : CodePage) (fs : List Value)
    (hno : noTSVariantsList fs = true) :
    keySerializeFields cp fs = vecKeySerializeFields cp fs [] := by
  match fs with
  | [] => simp [keySerializeFields, vecKeySerializeFields]
  | f :: rest =>
    simp only [noTSVariantsList, Bool.and_eq_true] at hno
    obtain ⟨hno1, hno2⟩ := hno
    simp only [keySerializeFields, vecKeySerializeFields]
    rw [eslSerialize_eq cp false f hno1]
    cases hv : vecEslSerialize cp false f [] with
    | error e => simp
    | ok p =>
      obtain ⟨d1, n1⟩ := p
      simp only [List.nil_append]
      rw [keySerializeFields_eq cp rest hno2,
        vecKeySerializeFields_delta cp rest d1]
      cases hr : vecKeySerializeFields cp rest [] with
      | error e => simp [shiftSer]
      | ok q => obtain ⟨d2, n2⟩ := q; simp [shiftSer]

end

/-! ### Remaining per-claim infrastructure -/

/-- One step of the element fold when the tail is nonempty. -/
theorem vecSeqElements_cons (cp : CodePage) (a : Value) (rest : List Value)
    (w : W) (hne : rest ≠ []) :
    vecSeqElements cp (a :: rest) w =
      match vecEslSerialize cp false a w with
      | .error e1 => .error e1
      | .ok (w1, n) =>
        match vecSeqElements cp rest w1 with
        | .error e1 => .error e1
        | .ok (w2, tot, lz) => .ok (w2, n + tot, lz) := by
  match rest with
  | [] => exact absurd rfl hne
  | r :: rs =>
    simp only [vecSeqElements]

/-- Folding the elements of `es ++ [e]`: the whole-sequence fold runs the
initial elements and then the last one, and the zero-size flag records
whether the last element returned size zero. -/
theorem vecSeqElements_snoc (cp : CodePage) (es : List Value) (e : Value)
    (w : W) :
    vecSeqElements cp (es ++ [e]) w =
      match vecSeqElements cp es w with
      | .error e1 => .error e1
      | .ok (w1, t1, _) =>
        match vecEslSerialize cp false e w1 with
        | .error e1 => .error e1
        | .ok (w2, n) => .ok (w2, t1 + n, n == 0) := by
  induction es generalizing w with
  | nil =>
    simp only [List.nil_append, vecSeqElements]
    cases hv : vecEslSerialize cp false e w with
    | error e1 => simp
    | ok p => obtain ⟨w1, n⟩ := p; simp
  | cons a rest ih =>
    match rest with
    | [] =>
      simp only [List.cons_append, List.nil_append, vecSeqElements]
      cases ha : vecEslSerialize cp false a w with
      | error e1 => simp
      | ok p =>
        obtain ⟨w1, n1⟩ := p
        cases hv : vecEslSerialize cp false e w1 with
        | error e1 => simp [hv]
        | ok q => obtain ⟨w2, n⟩ := q; simp [hv]
    | r :: rs =>
      rw [List.cons_append, List.cons_append,
        vecSeqElements_cons cp a (r :: (rs ++ [e])) w (by simp),
        vecSeqElements_cons cp a (r :: rs) w (by simp)]
      cases ha : vecEslSerialize cp false a w with
      | error e1 => simp
      | ok p =>
        obtain ⟨w1, n1⟩ := p
        have ih2 := ih w1
        rw [List.cons_append] at ih2
        simp only [ih2]
        cases hr : vecSeqElements cp (r :: rs) w1 with
        | error e1 => simp [hr]
        | ok q =>
          obtain ⟨w2, t2, lz2⟩ := q
          cases hv : vecEslSerialize cp false e w2 with
          | error e1 => simp [hr, hv]
          | ok q2 => obtain ⟨w3, n⟩ := q2; simp [hr, hv, Nat.add_assoc]

/-- The only error `end_isolate` itself produces is `LargeObject`. -/
theorem endIsolate_error {w : W} {s p : Nat} {e : SerError}
    (h : endIsolate w s p = .error e) : e = .largeObject (w.length - p) := by
  unfold endIsolate size at h
  split at h
  · rename_i heq
    split at heq
    · simp only [Except.error.injEq] at heq
      simp only [Except.error.injEq] at h
      rw [← h, ← heq]
    · cases heq
  · cases h

/-- A sample single-byte code page standing in for the external
`code_page` module: ASCII characters map to their code point. -/
def cpAscii : CodePage := fun c =>
  if c.toNat < 128 then some c.toNat else none

/-- A sample single-byte code page with one non-ASCII letter, mirroring the
Russian code page used by the repository's tests, in which the char Ы
transcodes to the single byte 219. -/
def cpSample : CodePage := fun c =>
  if c.toNat < 128 then some c.toNat
  else if c = 'Ы' then some 219
  else none

/-! ## The claims

Each claim of the specification review is settled by one theorem below;
counterexample theorems are closed computations of the embedded encoders,
and witness theorems instantiate a claim theorem at concrete inputs. -/

/-- C1: for the `Vec<u8>` realization of the isolation protocol,
`begin_isolate` appends the 4-byte placeholder and returns its offset, and
`end_isolate` called with the payload start computes the payload length,
fails with `LargeObject` exactly when that length exceeds the u32 range,
and otherwise overwrites the placeholder with the length as little-endian
u32 — so the 4-byte prefix equals the exact byte count of the payload. -/
theorem c1_end_isolate_patches_exact_length (w payload : W) :
    beginIsolate w = (w ++ leBytes 4 SIZE_STUB, w.length) ∧
    endIsolate (w ++ leBytes 4 SIZE_STUB ++ payload) w.length (w.length + 4) =
      (if payload.length ≤ u32Max then
        .ok (w ++ leBytes 4 payload.length ++ payload)
      else .error (.largeObject payload.length)) :=
  ⟨rfl, endIsolate_stub w payload⟩

/-- C2, counterexample: the tuple `(TupleVariant 4 [1u32], 7u32)` encodes
isolated to 12 bytes but the encoder reports size 8 (the nested variant's
4 discriminant bytes are not counted), so the newtype variant with
discriminant 12 around it — whose payload does encode to exactly 12
bytes — is rejected with `VariantIndexMismatch{12, 8}` instead of
passing the claimed payload-byte-length check. -/
theorem c2_counterexample :
    vecEslSerialize cpAscii true
        (.vTuple [.vTupleVariant 4 [.vU32 1], .vU32 7]) [] =
      .ok ([4, 0, 0, 0, 1, 0, 0, 0, 7, 0, 0, 0], 8) ∧
    vecEslSerialize cpAscii false
        (.vNewtypeVariant 12
          (.vTuple [.vTupleVariant 4 [.vU32 1], .vU32 7])) [] =
      .error (.ser (.variantIndexMismatch 12 8)) :=
  ⟨rfl, rfl⟩

/-- C2, amended: the variant check compares the discriminant with the
size value the payload encoding RETURNS (the encoder's accumulated size),
not with the payload's byte length: given that the payload encoding
returns `(wa, n)` (for a newtype payload) or the field fold returns
`(wc, m)` (for tuple/struct variant fields), a non-isolated variant
succeeds exactly when the discriminant equals that returned size, and
fails with `VariantIndexMismatch` carrying it otherwise.  The returned
size equals the payload byte length only on values free of nested
non-isolated tuple/struct variants. -/
theorem c2_variant_size_check (cp : CodePage) (idx : Nat) (v1 : Value)
    (fs : List Value) (w wa wc : W) (n m : Nat)
    (ha : vecEslSerialize cp true v1 (w ++ leBytes 4 idx) = .ok (wa, n))
    (hn : n ≤ u32Max)
    (hc : vecSerializeFields cp none fs (w ++ leBytes 4 idx) = .ok (wc, m))
    (hm : m ≤ u32Max) :
    vecEslSerialize cp false (.vNewtypeVariant idx v1) w =
      (if idx = n then .ok (wa, 4 + n)
       else .error (.ser (.variantIndexMismatch idx n))) ∧
    vecEslSerialize cp false (.vTupleVariant idx fs) w =
      (if idx = m then .ok (wc, m)
       else .error (.ser (.variantIndexMismatch idx m))) ∧
    vecEslSerialize cp false (.vStructVariant idx fs) w =
      (if idx = m then .ok (wc, m)
       else .error (.ser (.variantIndexMismatch idx m))) := by
  have hn2 : ¬ n > u32Max := by omega
  have hm2 : ¬ m > u32Max := by omega
  refine ⟨?_, ?_, ?_⟩
  · simp [vecEslSerialize, ha, size, hn2]
  · simp [vecEslSerialize, hc, size, hm2]
  · simp [vecEslSerialize, hc, size, hm2]

/-- C2, witness: discriminant 4 with a `u32` payload (returned size 4). -/
theorem c2_variant_size_check_witness :
    vecEslSerialize cpAscii false (.vNewtypeVariant 4 (.vU32 1)) [] =
      (if 4 = 4 then .ok (([4, 0, 0, 0, 1, 0, 0, 0] : W), 4 + 4)
       else .error (.ser (.variantIndexMismatch 4 4))) ∧
    vecEslSerialize cpAscii false (.vTupleVariant 4 [.vU32 1]) [] =
      (if 4 = 4 then .ok (([4, 0, 0, 0, 1, 0, 0, 0] : W), 4)
       else .error (.ser (.variantIndexMismatch 4 4))) ∧
    vecEslSerialize cpAscii false (.vStructVariant 4 [.vU32 1]) [] =
      (if 4 = 4 then .ok (([4, 0, 0, 0, 1, 0, 0, 0] : W), 4)
       else .error (.ser (.variantIndexMismatch 4 4))) :=
  c2_variant_size_check cpAscii 4 (.vU32 1) [.vU32 1] []
    [4, 0, 0, 0, 1, 0, 0, 0] [4, 0, 0, 0, 1, 0, 0, 0] 4 4
    rfl (by decide) rfl (by decide)

/-- C3, counterexample: the sequence `[1u8, TupleVariant 0 []]` fails with
`ZeroSizedLastSequenceElement` although its last element's encoding
produced 4 bytes, not zero (the non-isolated variant writes its 4-byte
discriminant but returns size 0): the zero-size test is on the returned
size, not on the bytes written. -/
theorem c3_counterexample :
    vecEslSerialize cpAscii true (.vSeq [.vU8 1, .vTupleVariant 0 []]) [] =
      .error (.ser .zeroSizedLastSequenceElement) ∧
    vecEslSerialize cpAscii false (.vTupleVariant 0 []) [1] =
      .ok ([1, 0, 0, 0, 0], 0) :=
  ⟨rfl, rfl⟩

/-- C3, amended: a non-isolated sequence opens exactly one isolate around
the whole sequence and encodes every element with `isolated = false`; it
fails with `ZeroSizedLastSequenceElement` exactly when the last element's
encoding RETURNED size zero (which coincides with writing zero bytes only
on tuple/struct-variant-free elements); otherwise the single isolate is
closed over everything written since the stub. -/
theorem c3_seq_last_element_zero_size (cp : CodePage) (es : List Value)
    (e : Value) (w w1 w2 : W) (t1 : Nat) (lz1 : Bool) (n : Nat)
    (hes : vecSeqElements cp es (w ++ leBytes 4 SIZE_STUB) =
      .ok (w1, t1, lz1))
    (he : vecEslSerialize cp false e w1 = .ok (w2, n)) :
    vecEslSerialize cp false (.vSeq (es ++ [e])) w =
      (if n = 0 then .error (.ser .zeroSizedLastSequenceElement)
       else
         match endIsolate w2 w.length (w.length + 4) with
         | .error e1 => .error (.ser e1)
         | .ok w3 => .ok (w3, 4 + (t1 + n))) ∧
    (vecEslSerialize cp false (.vSeq (es ++ [e])) w =
        .error (.ser .zeroSizedLastSequenceElement) ↔ n = 0) := by
  have hrun : vecSeqElements cp (es ++ [e]) (w ++ leBytes 4 SIZE_STUB) =
      .ok (w2, t1 + n, n == 0) := by
    rw [vecSeqElements_snoc, hes]
    simp [he]
  have hmain : vecEslSerialize cp false (.vSeq (es ++ [e])) w =
      (if n = 0 then .error (.ser .zeroSizedLastSequenceElement)
       else
         match endIsolate w2 w.length (w.length + 4) with
         | .error e1 => .error (.ser e1)
         | .ok w3 => .ok (w3, 4 + (t1 + n))) := by
    simp only [vecEslSerialize, hrun]
    by_cases hq : n = 0 <;> simp [hq]
  refine ⟨hmain, ?_⟩
  rw [hmain]
  by_cases hq : n = 0
  · simp [hq]
  · simp only [if_neg hq]
    cases hei : endIsolate w2 w.length (w.length + 4) with
    | error e1 =>
      have he2 := endIsolate_error hei
      subst he2
      simp [hq]
    | ok w3 => simp [hq]

/-- C3, witness: `[7u8]` then a unit last element (returned size 0). -/
theorem c3_seq_last_element_zero_size_witness :
    vecEslSerialize cpAscii false (.vSeq [.vU8 7, .vUnit]) [] =
      (if 0 = 0 then .error (.ser .zeroSizedLastSequenceElement)
       else
         match endIsolate [123, 241, 117, 19, 7] ([] : W).length
             (([] : W).length + 4) with
         | .error e1 => .error (.ser e1)
         | .ok w3 => .ok (w3, 4 + (1 + 0))) ∧
    (vecEslSerialize cpAscii false (.vSeq [.vU8 7, .vUnit]) [] =
        .error (.ser .zeroSizedLastSequenceElement) ↔ 0 = 0) :=
  c3_seq_last_element_zero_size cpAscii [.vU8 7] .vUnit []
    [123, 241, 117, 19, 7] [123, 241, 117, 19, 7] 1 false 0 rfl rfl

/-- C4: the struct `{a: i16 = 5, b: u32 = 90, c: text = "S"}` encoded
isolated under any code page sending the char S to byte 0x53 yields
exactly `[05, 00, 5A, 00, 00, 00, 53]` and size 7: fields in declared
order, integers little-endian, and no length prefix on the last field
because the struct itself is isolated. -/
theorem c4_struct_concrete (cp : CodePage) (w : W) (h : cp (Char.ofNat 83) = some 83) :
    vecEslSerialize cp true
        (.vStruct [.vI16 5, .vU32 90, .vStr [Char.ofNat 83]]) w =
      .ok (w ++ [5, 0, 90, 0, 0, 0, 83], 7) := by
  have hs : strBytes cp [Char.ofNat 83] = Except.ok [83] := by
    simp [strBytes, h]
  simp [vecEslSerialize, vecSerializeFields, hs, vecSerializeBytes,
    intLeBytes, leBytes, size, u32Max]

/-- C4, witness: the ASCII code page sends S (code point 83) to 0x53. -/
theorem c4_struct_concrete_witness :
    vecEslSerialize cpAscii true
        (.vStruct [.vI16 5, .vU32 90, .vStr [Char.ofNat 83]]) [] =
      .ok (([] : W) ++ [5, 0, 90, 0, 0, 0, 83], 7) :=
  c4_struct_concrete cpAscii [] rfl

/-- C5, counterexample: the isolated tuple variant with discriminant 4
and one `u32` field encodes to the payload bytes `[7, 0, 0, 0]` alone:
no 4-byte discriminant `[4, 0, 0, 0]` precedes the payload, refuting
that an isolated variant still writes its discriminant explicitly. -/
theorem c5_counterexample :
    vecEslSerialize cpAscii true (.vTupleVariant 4 [.vU32 7]) [] =
      .ok ([7, 0, 0, 0], 4) ∧
    List.take 4 [7, 0, 0, 0] ≠ leBytes 4 4 :=
  ⟨rfl, by decide⟩

/-- C5, amended: a newtype, tuple or struct variant writes its
discriminant as a plain 4-byte little-endian ordinal exactly when the
variant is NOT isolated (the payload or field fold then continues after
`w ++ leBytes 4 idx`); when the variant is isolated no discriminant is
written at all — the encoding continues directly at `w`, and a declared
field count makes the last field isolated. -/
theorem c5_variant_discriminant (cp : CodePage) (idx : Nat) (v1 : Value)
    (fs : List Value) (w wa wb wc wd : W) (na nb nc nd : Nat)
    (ha : vecEslSerialize cp true v1 (w ++ leBytes 4 idx) = .ok (wa, na))
    (hna : na ≤ u32Max) (hia : idx = na)
    (hb : vecEslSerialize cp true v1 w = .ok (wb, nb))
    (hnb : nb ≤ u32Max) (hib : idx = nb)
    (hc : vecSerializeFields cp none fs (w ++ leBytes 4 idx) = .ok (wc, nc))
    (hnc : nc ≤ u32Max) (hic : idx = nc)
    (hd : vecSerializeFields cp (some fs.length) fs w = .ok (wd, nd))
    (hnd : nd ≤ u32Max) (hid : idx = nd) :
    vecEslSerialize cp false (.vNewtypeVariant idx v1) w = .ok (wa, 4 + na) ∧
    vecEslSerialize cp true (.vNewtypeVariant idx v1) w = .ok (wb, nb) ∧
    vecEslSerialize cp false (.vTupleVariant idx fs) w = .ok (wc, nc) ∧
    vecEslSerialize cp true (.vTupleVariant idx fs) w = .ok (wd, nd) ∧
    vecEslSerialize cp false (.vStructVariant idx fs) w = .ok (wc, nc) ∧
    vecEslSerialize cp true (.vStructVariant idx fs) w = .ok (wd, nd) := by
  have h2a : ¬ na > u32Max := by omega
  have h2b : ¬ nb > u32Max := by omega
  have h2c : ¬ nc > u32Max := by omega
  have h2d : ¬ nd > u32Max := by omega
  refine ⟨?_, ?_, ?_, ?_, ?_, ?_⟩
  · rw [hia] at ha ⊢
    simp [vecEslSerialize, ha, size, h2a]
  · rw [hib]
    simp [vecEslSerialize, hb, size, h2b]
  · rw [hic] at hc ⊢
    simp [vecEslSerialize, hc, size, h2c]
  · rw [hid]
    simp [vecEslSerialize, hd, size, h2d]
  · rw [hic] at hc ⊢
    simp [vecEslSerialize, hc, size, h2c]
  · rw [hid]
    simp [vecEslSerialize, hd, size, h2d]

/-- C5, witness: discriminant 4 with a `u32` payload, both flags: the
non-isolated encodings carry `[4, 0, 0, 0]` before the payload, the
isolated ones are the bare payload `[7, 0, 0, 0]`. -/
theorem c5_variant_discriminant_witness :
    vecEslSerialize cpAscii false (.vNewtypeVariant 4 (.vU32 7)) [] =
      .ok ([4, 0, 0, 0, 7, 0, 0, 0], 4 + 4) ∧
    vecEslSerialize cpAscii true (.vNewtypeVariant 4 (.vU32 7)) [] =
      .ok ([7, 0, 0, 0], 4) ∧
    vecEslSerialize cpAscii false (.vTupleVariant 4 [.vU32 7]) [] =
      .ok ([4, 0, 0, 0, 7, 0, 0, 0], 4) ∧
    vecEslSerialize cpAscii true (.vTupleVariant 4 [.vU32 7]) [] =
      .ok ([7, 0, 0, 0], 4) ∧
    vecEslSerialize cpAscii false (.vStructVariant 4 [.vU32 7]) [] =
      .ok ([4, 0, 0, 0, 7, 0, 0, 0], 4) ∧
    vecEslSerialize cpAscii true (.vStructVariant 4 [.vU32 7]) [] =
      .ok ([7, 0, 0, 0], 4) :=
  c5_variant_discriminant cpAscii 4 (.vU32 7) [.vU32 7] []
    [4, 0, 0, 0, 7, 0, 0, 0] [7, 0, 0, 0] [4, 0, 0, 0, 7, 0, 0, 0]
    [7, 0, 0, 0] 4 4 4 4
    rfl (by decide) rfl rfl (by decide) rfl rfl (by decide) rfl
    rfl (by decide) rfl

/-- C6, counterexample: the empty map and a two-entry map both encode
successfully — the empty map writes nothing and returns size 0, the
two-entry map writes both entries — so neither the zero-entry nor the
multi-entry case is rejected. -/
theorem c6_counterexample :
    vecEslSerialize cpAscii true (.vMap []) [] = .ok ([], 0) ∧
    vecEslSerialize cpAscii true
        (.vMap [(.vU8 1, .vU8 2), (.vU8 3, .vU8 4)]) [] =
      .ok ([1, 1, 0, 0, 0, 2, 3, 1, 0, 0, 0, 4], 12) :=
  ⟨rfl, rfl⟩

/-- C6, amended: the map serializer performs no arity check at all: a
map with zero entries encodes as nothing, and for a nonempty map each
entry is encoded in turn (key via the key serializer, value in its own
isolate) with an arbitrary tail of further entries — so any number of
entries is accepted. -/
theorem c6_map_no_arity_check (cp : CodePage) (iso : Bool) (k v : Value)
    (rest : List (Value × Value)) (w w1 w2 w3 w4 : W) (ks vs tot : Nat)
    (hk : vecKeySerialize cp k w = .ok (w1, none, ks))
    (hv : vecEslSerialize cp true v (w1 ++ leBytes 4 SIZE_STUB) =
      .ok (w2, vs))
    (he : endIsolate w2 w1.length (w1.length + 4) = .ok w3)
    (hr : vecMapEntries cp rest w3 = .ok (w4, tot)) :
    vecEslSerialize cp iso (.vMap []) w = .ok (w, 0) ∧
    vecEslSerialize cp iso (.vMap ((k, v) :: rest)) w =
      .ok (w4, (ks + 4) + vs + tot) := by
  refine ⟨rfl, ?_⟩
  simp only [vecEslSerialize, vecMapEntries, hk, hv, he, hr]

/-- C6, witness: a two-entry map `{1u8: 2u8, 3u8: 4u8}`. -/
theorem c6_map_no_arity_check_witness :
    vecEslSerialize cpAscii true (.vMap []) [] = .ok ([], 0) ∧
    vecEslSerialize cpAscii true
        (.vMap [(.vU8 1, .vU8 2), (.vU8 3, .vU8 4)]) [] =
      .ok ([1, 1, 0, 0, 0, 2, 3, 1, 0, 0, 0, 4], (1 + 4) + 1 + 6) :=
  c6_map_no_arity_check cpAscii true (.vU8 1) (.vU8 2) [(.vU8 3, .vU8 4)]
    [] [1] [1, 123, 241, 117, 19, 2] [1, 1, 0, 0, 0, 2]
    [1, 1, 0, 0, 0, 2, 3, 1, 0, 0, 0, 4] 1 1 6 rfl rfl rfl rfl

/-- C7: the short-string protocol checks and pads by the UTF-8 byte
length of the text but emits one tuple element per char: under the
sample code page (in which the two-UTF-8-byte char of code point 0x42B
transcodes to the single byte 219) a declared width of 2 accepts that
one-char text and emits a single byte with no padding — fewer than the
declared 2 elements — while the one-char ASCII text A is padded to the
declared 2 elements. -/
theorem c7_short_string_divergence :
    serializeStringTuple cpSample true [Char.ofNat 1067] 2 [] =
      .ok ([219], 1) ∧
    ([219] : List Nat).length ≠ 2 ∧
    serializeStringTuple cpSample true [Char.ofNat 65] 2 [] =
      .ok ([65, 0], 2) :=
  ⟨rfl, by decide, rfl⟩

/-- C8, counterexample: the tuple `(TupleVariant 0 [], ())` encodes
isolated to the 4 bytes `[0, 0, 0, 0]` (the nested non-isolated variant
writes its discriminant) with returned size 0, and `Some` of it fails
with `ZeroSizedOptional` under both flags — although the payload's
encoding is 4 bytes, not zero: the zero test is on the returned size,
so a nonzero-byte payload can still be rejected, refuting the claimed
"otherwise writes length and payload". -/
theorem c8_counterexample :
    vecEslSerialize cpAscii true (.vTuple [.vTupleVariant 0 [], .vUnit]) [] =
      .ok ([0, 0, 0, 0], 0) ∧
    vecEslSerialize cpAscii false
        (.vSome (.vTuple [.vTupleVariant 0 [], .vUnit])) [] =
      .error (.ser .zeroSizedOptional) ∧
    vecEslSerialize cpAscii true
        (.vSome (.vTuple [.vTupleVariant 0 [], .vUnit])) [] =
      .error (.ser .zeroSizedOptional) :=
  ⟨rfl, rfl, rfl⟩

/-- C8, amended: `None` writes nothing when isolated and a 4-byte zero
when not; `Some v` fails with `ZeroSizedOptional` (under both flags)
whenever the isolated encoding of `v` RETURNS size zero — even when it
wrote bytes, as a nested non-isolated tuple/struct variant's
discriminant bytes are written but not counted — and when the returned
size is nonzero a non-isolated `Some v` writes a 4-byte little-endian
length equal to the payload's byte count followed by the payload, while
an isolated `Some v` is the bare payload. -/
theorem c8_option_encoding (cp : CodePage) (v1 vz : Value) (w d dz : W)
    (n : Nat)
    (hv : vecEslSerialize cp true v1 [] = .ok (d, n))
    (hn0 : n ≠ 0) (hle : d.length ≤ u32Max)
    (hz : vecEslSerialize cp true vz [] = .ok (dz, 0)) :
    vecEslSerialize cp true .vNone w = .ok (w, 0) ∧
    vecEslSerialize cp false .vNone w = .ok (w ++ leBytes 4 0, 4) ∧
    vecEslSerialize cp true (.vSome vz) w =
      .error (.ser .zeroSizedOptional) ∧
    vecEslSerialize cp false (.vSome vz) w =
      .error (.ser .zeroSizedOptional) ∧
    vecEslSerialize cp true (.vSome v1) w = .ok (w ++ d, n) ∧
    vecEslSerialize cp false (.vSome v1) w =
      .ok (w ++ leBytes 4 d.length ++ d, 4 + n) := by
  have hzw : ∀ u : W, vecEslSerialize cp true vz u = .ok (u ++ dz, 0) := by
    intro u
    rw [vecEslSerialize_delta cp true vz u, hz]
    simp [shiftSer]
  have hvw : ∀ u : W, vecEslSerialize cp true v1 u = .ok (u ++ d, n) := by
    intro u
    rw [vecEslSerialize_delta cp true v1 u, hv]
    simp [shiftSer]
  refine ⟨rfl, rfl, ?_, ?_, ?_, ?_⟩
  · simp only [vecEslSerialize, hzw w]
    simp
  · simp only [vecEslSerialize, hzw (w ++ leBytes 4 SIZE_STUB)]
    simp
  · simp only [vecEslSerialize, hvw w]
    simp [hn0]
  · simp only [vecEslSerialize, hvw (w ++ leBytes 4 SIZE_STUB)]
    rw [if_neg hn0, endIsolate_stub w d, if_pos hle]
    simp

/-- C8, witness: `Some 7u8` (payload one byte, returned size 1) and
`Some (TupleVariant 0 [], ())` (payload four bytes, returned size 0). -/
theorem c8_option_encoding_witness :
    vecEslSerialize cpAscii true .vNone [] = .ok ([], 0) ∧
    vecEslSerialize cpAscii false .vNone [] =
      .ok (([] : W) ++ leBytes 4 0, 4) ∧
    vecEslSerialize cpAscii true
        (.vSome (.vTuple [.vTupleVariant 0 [], .vUnit])) [] =
      .error (.ser .zeroSizedOptional) ∧
    vecEslSerialize cpAscii false
        (.vSome (.vTuple [.vTupleVariant 0 [], .vUnit])) [] =
      .error (.ser .zeroSizedOptional) ∧
    vecEslSerialize cpAscii true (.vSome (.vU8 7)) [] =
      .ok (([] : W) ++ [7], 1) ∧
    vecEslSerialize cpAscii false (.vSome (.vU8 7)) [] =
      .ok (([] : W) ++ leBytes 4 ([7] : W).length ++ [7], 4 + 1) :=
  c8_option_encoding cpAscii (.vU8 7)
    (.vTuple [.vTupleVariant 0 [], .vUnit]) [] [7] [0, 0, 0, 0] 1
    rfl (by decide) (by decide) rfl

/-- C9, counterexample: on the tuple variant with discriminant 12 whose
single field is `Some (TupleVariant 4 [1u32], 7u32)`, the streaming
encoder succeeds (20 bytes, reported size 12) while the legacy encoder
fails with `VariantIndexMismatch{12, 16}`: the legacy `serialize_some`
counts the buffered payload's bytes (16) where the streaming one sums
the returned sizes (12), so the two encoders are not equivalent. -/
theorem c9_counterexample :
    vecEslSerialize cpAscii false
        (.vTupleVariant 12
          [.vSome (.vTuple [.vTupleVariant 4 [.vU32 1], .vU32 7])]) [] =
      .ok ([12, 0, 0, 0, 12, 0, 0, 0, 4, 0, 0, 0, 1, 0, 0, 0, 7, 0, 0, 0],
        12) ∧
    eslSerialize cpAscii false
        (.vTupleVariant 12
          [.vSome (.vTuple [.vTupleVariant 4 [.vU32 1], .vU32 7])]) =
      .error (.ser (.variantIndexMismatch 12 16)) :=
  ⟨rfl, rfl⟩

/-- C9, amended: on values free of tuple and struct variants the two
encoder generations agree exactly — the legacy encoder's appended bytes
and returned size match the streaming encoder's, on every sink, code
page and isolation flag. -/
theorem c9_encoders_agree_on_tsv_free (cp : CodePage) (iso : Bool)
    (v : Value) (w : W) (hno : noTSVariants v = true) :
    vecEslSerialize cp iso v w =
      (match eslSerialize cp iso v with
       | .error e => .error e
       | .ok (d, n) => .ok (w ++ d, n)) := by
  rw [eslSerialize_eq cp iso v hno, vecEslSerialize_delta cp iso v w]
  cases h : vecEslSerialize cp iso v [] with
  | error e => simp [shiftSer]
  | ok p => obtain ⟨d, n⟩ := p; simp [shiftSer]

/-- C9, witness: a struct of a byte and a short text over a nonempty
sink. -/
theorem c9_encoders_agree_on_tsv_free_witness :
    vecEslSerialize cpAscii false
        (.vStruct [.vU8 1, .vStr [Char.ofNat 65, Char.ofNat 66]]) [5] =
      (match eslSerialize cpAscii false
          (.vStruct [.vU8 1, .vStr [Char.ofNat 65, Char.ofNat 66]]) with
       | .error e => .error e
       | .ok (d, n) => .ok ([5] ++ d, n)) :=
  c9_encoders_agree_on_tsv_free cpAscii false
    (.vStruct [.vU8 1, .vStr [Char.ofNat 65, Char.ofNat 66]]) [5] rfl

/-- C10, counterexample: the non-isolated tuple variant with
discriminant 4 and one `u32` field appends 8 bytes (4-byte discriminant
plus 4-byte field) but returns size 4: the returned size undercounts the
bytes written by the 4 discriminant bytes. -/
theorem c10_counterexample :
    vecEslSerialize cpAscii false (.vTupleVariant 4 [.vU32 1]) [] =
      .ok ([4, 0, 0, 0, 1, 0, 0, 0], 4) ∧
    ([4, 0, 0, 0, 1, 0, 0, 0] : W).length = 8 :=
  ⟨rfl, rfl⟩

/-- C10, amended: on values free of tuple and struct variants the
returned size equals exactly the number of bytes the call appended to
the sink; each non-isolated tuple/struct variant inside a value makes
the returned size fall 4 bytes (its discriminant) short of the bytes
written. -/
theorem c10_size_exact_on_tsv_free (cp : CodePage) (iso : Bool)
    (v : Value) (w w2 : W) (n : Nat) (hno : noTSVariants v = true)
    (h : vecEslSerialize cp iso v w = .ok (w2, n)) :
    w2.length = w.length + n :=
  vecEslSerialize_sizeEq cp iso v w w2 n hno h

/-- C10, witness: the sequence `[1u8, 2u8]` encoded non-isolated appends
6 bytes and returns 6. -/
theorem c10_size_exact_on_tsv_free_witness :
    ([2, 0, 0, 0, 1, 2] : W).length = ([] : W).length + 6 :=
  c10_size_exact_on_tsv_free cpAscii false (.vSeq [.vU8 1, .vU8 2]) []
    [2, 0, 0, 0, 1, 2] 6 rfl rfl

end Esl
